import Mathlib

/-!
Verification of the durable-cf-streams core against its specification.

The TypeScript sources are shallowly embedded:
  * byte buffers (`Uint8Array`) are `List Nat` (each entry < 256 where it matters),
  * JavaScript strings are `List Char` (or Lean `String` for opaque tokens),
  * JavaScript numbers are `Nat`/`Int` (the values reached by the code stay
    far below 2^53, where JS numbers are exact),
  * platform builtins (`JSON.parse`, `crypto.subtle.digest`, `Date` parsing,
    `Math.random`, `Date.now`) are explicit parameters of the embedded
    functions, and
  * stateful store classes become pure functions threading their state.
-/

namespace DurableStreams

/-! ## Digit rendering and parsing

`Number.prototype.toString(16)` / `Number.parseInt(−,16)` (and their base-10
versions) are platform builtins; they are modelled by minimal-digit rendering
and fold-based parsing over `List Char`. -/

/-- Decimal digit characters. -/
def decChars : List Char :=
  ['0', '1', '2', '3', '4', '5', '6', '7', '8', '9']

/-- Set of lowercase hexadecimal digit characters. -/
def hexChars : List Char :=
  decChars ++ ['a', 'b', 'c', 'd', 'e', 'f']

/-- `[0-9a-f]` (lowercase), as in the offset regex. -/
def isHexLower (c : Char) : Bool := hexChars.contains c

/-- `[0-9]`. -/
def isDecDigit (c : Char) : Bool := decChars.contains c

/-- Numeric value of a digit character (0 for non-digits). -/
def digitVal (c : Char) : Nat :=
  if '0' ≤ c ∧ c ≤ '9' then c.toNat - 48
  else if 'a' ≤ c ∧ c ≤ 'f' then c.toNat - 87
  else 0

/-- Fuel-driven digit recursion (structural, so that it computes inside the
kernel); `fuel ≥ n` always suffices. -/
def toDigitsMinAux (b : Nat) : Nat → Nat → List Char
  | 0, n => [Nat.digitChar (n % b)]
  | fuel + 1, n =>
    if 1 < b ∧ b ≤ n then toDigitsMinAux b fuel (n / b) ++ [Nat.digitChar (n % b)]
    else [Nat.digitChar (n % b)]

/-- Minimal digit string of `n` in base `b` (most-significant first), as
produced by `n.toString(b)` for `2 ≤ b ≤ 16`. -/
def toDigitsMin (b n : Nat) : List Char := toDigitsMinAux b n n

theorem toDigitsMinAux_fuel {b : Nat} :
    ∀ (f1 f2 n : Nat), n ≤ f1 → n ≤ f2 → toDigitsMinAux b f1 n = toDigitsMinAux b f2 n := by
  intro f1
  induction f1 with
  | zero =>
    intro f2 n h1 h2
    have hn : n = 0 := by omega
    subst hn
    cases f2 with
    | zero => rfl
    | succ f2 =>
      show _ = if 1 < b ∧ b ≤ 0 then _ else _
      rw [if_neg (by omega)]
      rfl
  | succ f1 ih =>
    intro f2 n h1 h2
    cases f2 with
    | zero =>
      have hn : n = 0 := by omega
      subst hn
      show (if 1 < b ∧ b ≤ 0 then _ else _) = _
      rw [if_neg (by omega)]
      rfl
    | succ f2 =>
      show (if 1 < b ∧ b ≤ n then toDigitsMinAux b f1 (n / b) ++ _ else _) =
        (if 1 < b ∧ b ≤ n then toDigitsMinAux b f2 (n / b) ++ _ else _)
      by_cases hc : 1 < b ∧ b ≤ n
      · have hd : n / b < n := Nat.div_lt_self (by omega) hc.1
        rw [if_pos hc, if_pos hc,
          ih f2 (n / b) (by omega) (by omega)]
      · rw [if_neg hc, if_neg hc]

/-- The defining equation of `toDigitsMin` in its natural recursive form. -/
theorem toDigitsMin_eq (b n : Nat) :
    toDigitsMin b n = if 1 < b ∧ b ≤ n then
      toDigitsMin b (n / b) ++ [Nat.digitChar (n % b)]
    else [Nat.digitChar (n % b)] := by
  by_cases hc : 1 < b ∧ b ≤ n
  · rw [if_pos hc]
    unfold toDigitsMin
    have hb1 : 1 < b := hc.1
    cases hn : n with
    | zero => omega
    | succ m =>
      have hd2 : (m + 1) / b < m + 1 := Nat.div_lt_self (Nat.succ_pos m) hb1
      show (if 1 < b ∧ b ≤ m + 1 then toDigitsMinAux b m ((m + 1) / b) ++ _ else _) = _
      rw [if_pos (show 1 < b ∧ b ≤ m + 1 by omega)]
      rw [toDigitsMinAux_fuel m ((m + 1) / b) ((m + 1) / b)
        (show (m + 1) / b ≤ m by omega) (le_refl _)]
  · rw [if_neg hc]
    unfold toDigitsMin
    cases hn : n with
    | zero => rfl
    | succ m =>
      show (if 1 < b ∧ b ≤ m + 1 then _ else _) = _
      rw [if_neg (by omega)]

/-- Value of a most-significant-first digit string in base `b`
(the accepting core of `Number.parseInt`). -/
def valDigits (b : Nat) (l : List Char) : Nat :=
  l.foldl (fun acc c => b * acc + digitVal c) 0

/-- `padStart(w, c)` on a character list. -/
def padLeft (w : Nat) (c : Char) (l : List Char) : List Char :=
  List.replicate (w - l.length) c ++ l

/-- Least-significant-first fixed-width digit rendering (auxiliary). -/
def fixedRev (b : Nat) : Nat → Nat → List Char
  | 0, _ => []
  | w + 1, n => Nat.digitChar (n % b) :: fixedRev b w (n / b)

theorem digitVal_digitChar {d : Nat} (h : d < 16) : digitVal (Nat.digitChar d) = d := by
  interval_cases d <;> rfl

theorem isHexLower_digitChar {d : Nat} (h : d < 16) : isHexLower (Nat.digitChar d) = true := by
  interval_cases d <;> rfl

theorem digitChar_digitVal {c : Char} (h : isHexLower c = true) :
    Nat.digitChar (digitVal c) = c := by
  have hm : c ∈ hexChars := by
    simpa [isHexLower, List.contains_iff_exists_mem_beq] using h
  fin_cases hm <;> rfl

theorem digitVal_lt_of_hex {c : Char} (h : isHexLower c = true) : digitVal c < 16 := by
  have hm : c ∈ hexChars := by
    simpa [isHexLower, List.contains_iff_exists_mem_beq] using h
  fin_cases hm <;> decide

/-- Horner unfolding of `valDigits` with a running accumulator. -/
theorem foldl_val_eq (b : Nat) (l : List Char) (a : Nat) :
    l.foldl (fun acc c => b * acc + digitVal c) a = a * b ^ l.length + valDigits b l := by
  induction l generalizing a with
  | nil => simp [valDigits]
  | cons c rest ih =>
    simp only [List.foldl_cons, List.length_cons, valDigits]
    rw [ih (b * a + digitVal c), ih (b * 0 + digitVal c)]
    ring

theorem valDigits_cons (b : Nat) (c : Char) (l : List Char) :
    valDigits b (c :: l) = digitVal c * b ^ l.length + valDigits b l := by
  have h := foldl_val_eq b l (b * 0 + digitVal c)
  simpa [valDigits, Nat.mul_comm] using h

theorem valDigits_append_singleton (b : Nat) (l : List Char) (c : Char) :
    valDigits b (l ++ [c]) = b * valDigits b l + digitVal c := by
  simp [valDigits, List.foldl_append]

/-- A string of hex digits denotes a value below `16 ^ length`. -/
theorem valDigits_lt {l : List Char} (h : ∀ c ∈ l, isHexLower c = true) :
    valDigits 16 l < 16 ^ l.length := by
  induction l using List.reverseRecOn with
  | nil => simp [valDigits]
  | append_singleton xs c ih =>
    have hc : digitVal c < 16 := digitVal_lt_of_hex (h c (by simp))
    have hxs : valDigits 16 xs < 16 ^ xs.length := ih fun d hd => h d (by simp [hd])
    rw [valDigits_append_singleton]
    have : 16 * valDigits 16 xs + digitVal c < 16 * 16 ^ xs.length := by omega
    calc 16 * valDigits 16 xs + digitVal c < 16 * 16 ^ xs.length := this
      _ = 16 ^ (xs ++ [c]).length := by
          simp [List.length_append, Nat.pow_succ, Nat.mul_comm]

/-- `fixedRev` only depends on the value modulo `b ^ w`. -/
theorem fixedRev_add_mul_pow (b : Nat) :
    ∀ (w m k : Nat), fixedRev b w (m + k * b ^ w) = fixedRev b w m := by
  intro w
  induction w with
  | zero => intro m k; rfl
  | succ w ih =>
    intro m k
    by_cases hb : b = 0
    · subst hb; simp [fixedRev, ih]
    have hb0 : 0 < b := Nat.pos_of_ne_zero hb
    have hpow : b ^ (w + 1) = b ^ w * b := by ring
    have hmod : (m + k * b ^ (w + 1)) % b = m % b := by
      rw [hpow, ← Nat.mul_assoc, Nat.add_mul_mod_self_right]
    have hdiv : (m + k * b ^ (w + 1)) / b = m / b + k * b ^ w := by
      rw [hpow, ← Nat.mul_assoc, Nat.add_mul_div_right _ _ hb0]
    simp [fixedRev, hmod, hdiv, ih]

/-- Rendering the value of a hex-digit string at its own width recovers the
string (least-significant-first form). -/
theorem fixedRev_valDigits {l : List Char} (h : ∀ c ∈ l, isHexLower c = true) :
    fixedRev 16 l.length (valDigits 16 l) = l.reverse := by
  induction l using List.reverseRecOn with
  | nil => simp [valDigits, fixedRev]
  | append_singleton xs c ih =>
    have hc : isHexLower c = true := h c (by simp)
    have hcv : digitVal c < 16 := digitVal_lt_of_hex hc
    rw [valDigits_append_singleton]
    have hlen : (xs ++ [c]).length = xs.length + 1 := by simp
    rw [hlen]
    have hmod : (16 * valDigits 16 xs + digitVal c) % 16 = digitVal c := by omega
    have hdiv : (16 * valDigits 16 xs + digitVal c) / 16 = valDigits 16 xs := by omega
    simp only [fixedRev, hmod, hdiv]
    rw [ih fun d hd => h d (by simp [hd]), digitChar_digitVal hc]
    simp

theorem fixedRev_zero (b w : Nat) : (fixedRev b w 0).reverse = List.replicate w '0' := by
  induction w with
  | zero => rfl
  | succ w ih =>
    have : Nat.digitChar (0 % b) = '0' := by
      by_cases hb : b = 0
      · subst hb; rfl
      · rw [Nat.zero_mod]; rfl
    simp only [fixedRev, Nat.zero_div, this, List.reverse_cons, ih]
    rw [← List.replicate_succ' w '0']

/-- Bridge between `toString(16).padStart(w,"0")` and fixed-width rendering,
for values that fit in `w` digits. -/
theorem padLeft_toDigitsMin (w n : Nat) (hw : 0 < w) (hn : n < 16 ^ w) :
    padLeft w '0' (toDigitsMin 16 n) = (fixedRev 16 w n).reverse := by
  induction w generalizing n with
  | zero => omega
  | succ w ih =>
    by_cases h16 : n < 16
    · rw [toDigitsMin_eq]
      have hcond : ¬(1 < 16 ∧ 16 ≤ n) := by omega
      rw [if_neg hcond]
      have hd : n / 16 = 0 := Nat.div_eq_of_lt h16
      simp only [fixedRev, hd, List.reverse_cons, fixedRev_zero]
      have hmod : n % 16 = n := Nat.mod_eq_of_lt h16
      rw [hmod]
      simp [padLeft, List.replicate_succ']
    · rw [toDigitsMin_eq]
      have hcond : 1 < 16 ∧ 16 ≤ n := by omega
      rw [if_pos hcond]
      have hw0 : 0 < w := by
        by_contra hw0
        have hw1 : w = 0 := by omega
        subst hw1
        simp at hn
        omega
      have hdiv : n / 16 < 16 ^ w := by
        have h1 : 16 ^ (w + 1) = 16 ^ w * 16 := by ring
        rw [h1] at hn
        omega
      have ihx := ih (n / 16) hw0 hdiv
      simp only [fixedRev, List.reverse_cons]
      rw [← ihx]
      simp only [padLeft, List.length_append, List.length_singleton]
      have harith : w + 1 - ((toDigitsMin 16 (n / 16)).length + 1)
          = w - (toDigitsMin 16 (n / 16)).length := by omega
      rw [harith, List.append_assoc]

/-- `padStart` then digit-value recovers a hex string of the right width. -/
theorem padLeft_toDigitsMin_valDigits {l : List Char} (hne : l ≠ [])
    (h : ∀ c ∈ l, isHexLower c = true) :
    padLeft l.length '0' (toDigitsMin 16 (valDigits 16 l)) = l := by
  rw [padLeft_toDigitsMin l.length (valDigits 16 l) (List.length_pos.mpr hne)
      (valDigits_lt h),
    fixedRev_valDigits h, List.reverse_reverse]

/-- All characters of a minimal base-16 rendering are lowercase hex digits. -/
theorem toDigitsMin_hex (n : Nat) : ∀ c ∈ toDigitsMin 16 n, isHexLower c = true := by
  induction n using Nat.strong_induction_on with
  | _ n ih =>
    rw [toDigitsMin_eq]
    by_cases hcond : 1 < 16 ∧ 16 ≤ n
    · rw [if_pos hcond]
      intro c hc
      rcases List.mem_append.mp hc with hc | hc
      · exact ih (n / 16) (Nat.div_lt_self (by omega) (by omega)) c hc
      · rcases List.mem_singleton.mp hc with rfl
        exact isHexLower_digitChar (Nat.mod_lt _ (by omega))
    · rw [if_neg hcond]
      intro c hc
      rcases List.mem_singleton.mp hc with rfl
      exact isHexLower_digitChar (Nat.mod_lt _ (by omega))

/-- The minimal rendering parses back to the rendered value. -/
theorem valDigits_toDigitsMin (n : Nat) : valDigits 16 (toDigitsMin 16 n) = n := by
  induction n using Nat.strong_induction_on with
  | _ n ih =>
    rw [toDigitsMin_eq]
    by_cases hcond : 1 < 16 ∧ 16 ≤ n
    · rw [if_pos hcond]
      rw [valDigits_append_singleton, ih (n / 16) (Nat.div_lt_self (by omega) (by omega)),
        digitVal_digitChar (Nat.mod_lt _ (by omega))]
      omega
    · rw [if_neg hcond]
      have hn : n < 16 := by omega
      have : valDigits 16 [Nat.digitChar (n % 16)] = n % 16 := by
        simp [valDigits, digitVal_digitChar (Nat.mod_lt n (by omega) : n % 16 < 16)]
      rw [this]
      omega

/-- Leading zeros do not change the parsed value. -/
theorem valDigits_replicate_zero (b k : Nat) (l : List Char) :
    valDigits b (List.replicate k '0' ++ l) = valDigits b l := by
  induction k with
  | zero => rfl
  | succ k ih =>
    have : List.replicate (k + 1) '0' ++ l = '0' :: (List.replicate k '0' ++ l) := by
      simp [List.replicate_succ]
    rw [this]
    have h0 : digitVal '0' = 0 := rfl
    simp [valDigits, List.foldl_cons, h0] at ih ⊢
    exact ih

/-- The minimal rendering of a value below `16 ^ w` has at most `w` digits. -/
theorem toDigitsMin_length_le {w n : Nat} (hw : 0 < w) (hn : n < 16 ^ w) :
    (toDigitsMin 16 n).length ≤ w := by
  induction w generalizing n with
  | zero => omega
  | succ w ih =>
    rw [toDigitsMin_eq]
    by_cases hcond : 1 < 16 ∧ 16 ≤ n
    · rw [if_pos hcond]
      have hw0 : 0 < w := by
        by_contra hw0
        have : w = 0 := by omega
        subst this
        simp at hn
        omega
      have hdiv : n / 16 < 16 ^ w := by
        have h1 : 16 ^ (w + 1) = 16 ^ w * 16 := by ring
        rw [h1] at hn
        omega
      have := ih hw0 hdiv
      simp only [List.length_append, List.length_singleton]
      omega
    · rw [if_neg hcond]
      simp

end DurableStreams

namespace DurableStreams

/-! ## Offset codec (offsets.ts)

Canonical offsets are 33-character strings `SSSSSSSSSSSSSSSS_PPPPPPPPPPPPPPPP`
(16 lowercase hex digits, an underscore, 16 lowercase hex digits), embedded
here as `List Char`. -/

/-- `"0000000000000000_0000000000000000"`. -/
def INITIAL_OFFSET : List Char :=
  List.replicate 16 '0' ++ '_' :: List.replicate 16 '0'

/-- The sentinel offset string `"-1"`. -/
def SENTINEL_OFFSET : List Char := ['-', '1']

def initialOffset : List Char := INITIAL_OFFSET

def isSentinelOffset (o : List Char) : Bool := o = SENTINEL_OFFSET

/-- `OFFSET_REGEX = /^[0-9a-f]{16}_[0-9a-f]{16}$/` as an executable predicate. -/
def offsetRegexMatch (l : List Char) : Bool :=
  (l.length == 33) && (l.take 16).all isHexLower && (l[16]? == some '_')
    && (l.drop 17).all isHexLower

def isValidOffset (o : List Char) : Bool :=
  isSentinelOffset o || offsetRegexMatch o

def normalizeOffset (o : List Char) : List Char :=
  if isSentinelOffset o then INITIAL_OFFSET else o

structure ParsedOffset where
  seq : Nat
  pos : Nat
  deriving DecidableEq, Repr

/-- `parseOffset`: regex-check, then split on the underscore and parse each
hex half. -/
def parseOffset (o : List Char) : Option ParsedOffset :=
  if offsetRegexMatch o then
    some ⟨valDigits 16 (o.take 16), valDigits 16 (o.drop 17)⟩
  else
    none

/-- `formatOffset`: `toString(16).padStart(16, "0")` on each half. -/
def formatOffset (seq pos : Nat) : List Char :=
  padLeft 16 '0' (toDigitsMin 16 seq) ++ '_' :: padLeft 16 '0' (toDigitsMin 16 pos)

/-- `compareOffsets` (−1 / 0 / 1 as an `Int`; 0 when either side fails to
parse, as in the source). -/
def compareOffsets (a b : List Char) : Int :=
  match parseOffset a, parseOffset b with
  | some pa, some pb =>
    if pa.seq ≠ pb.seq then (if pa.seq < pb.seq then -1 else 1)
    else if pa.pos ≠ pb.pos then (if pa.pos < pb.pos then -1 else 1)
    else 0
  | _, _ => 0

/-- `offsetToBytePos`: the parsed byte position, 0 when unparseable. -/
def offsetToBytePos (o : List Char) : Nat :=
  match parseOffset o with
  | some p => p.pos
  | none => 0

def advanceOffset (o : List Char) (byteCount : Nat) : List Char :=
  match parseOffset o with
  | none => o
  | some p => formatOffset p.seq (p.pos + byteCount)

def incrementSeq (o : List Char) : List Char :=
  match parseOffset o with
  | none => o
  | some p => formatOffset (p.seq + 1) p.pos

/-- Strict (S, P) lexicographic order on parsed offsets. -/
def parsedLtProp (x y : ParsedOffset) : Prop :=
  x.seq < y.seq ∨ (x.seq = y.seq ∧ x.pos < y.pos)

/-- A regex-matching offset splits into two 16-hex-digit halves around the
underscore. -/
theorem offsetRegexMatch_structure {l : List Char} (h : offsetRegexMatch l = true) :
    l = l.take 16 ++ '_' :: l.drop 17 ∧ (l.take 16).length = 16 ∧
      (l.drop 17).length = 16 ∧ (∀ c ∈ l.take 16, isHexLower c = true) ∧
      (∀ c ∈ l.drop 17, isHexLower c = true) := by
  unfold offsetRegexMatch at h
  simp only [Bool.and_eq_true, beq_iff_eq, List.all_eq_true] at h
  obtain ⟨⟨⟨hlen, hhex1⟩, hmid⟩, hhex2⟩ := h
  have h16 : (16 : Nat) < l.length := by omega
  have hdrop : l.drop 16 = '_' :: l.drop 17 := by
    have := List.drop_eq_getElem_cons h16
    rw [this]
    have : l[16] = '_' := by
      have hx := List.getElem?_eq_getElem h16
      rw [hx] at hmid
      exact Option.some_inj.mp hmid
    rw [this]
  refine ⟨?_, ?_, ?_, fun c hc => hhex1 c hc, fun c hc => hhex2 c hc⟩
  · conv_lhs => rw [← List.take_append_drop 16 l]
    rw [hdrop]
  · simp [List.length_take, hlen]
  · simp [List.length_drop, hlen]

/-- Both halves of `formatOffset` are 16 hex chars when the values fit. -/
theorem padLeft_half {n : Nat} (hn : n < 16 ^ 16) :
    (padLeft 16 '0' (toDigitsMin 16 n)).length = 16 ∧
      (∀ c ∈ padLeft 16 '0' (toDigitsMin 16 n), isHexLower c = true) ∧
      valDigits 16 (padLeft 16 '0' (toDigitsMin 16 n)) = n := by
  have hlen : (toDigitsMin 16 n).length ≤ 16 := toDigitsMin_length_le (by omega) hn
  refine ⟨?_, ?_, ?_⟩
  · simp only [padLeft, List.length_append, List.length_replicate]
    omega
  · intro c hc
    rcases List.mem_append.mp hc with hc | hc
    · rcases List.eq_of_mem_replicate hc with rfl
      rfl
    · exact toDigitsMin_hex n c hc
  · rw [padLeft, valDigits_replicate_zero, valDigits_toDigitsMin]

/-- `parseOffset (formatOffset s p) = some ⟨s, p⟩` for values that fit in 64
bits (always the case for append counts and byte positions). -/
theorem parseOffset_formatOffset {s p : Nat} (hs : s < 16 ^ 16) (hp : p < 16 ^ 16) :
    parseOffset (formatOffset s p) = some ⟨s, p⟩ := by
  obtain ⟨hl1, hh1, hv1⟩ := padLeft_half hs
  obtain ⟨hl2, hh2, hv2⟩ := padLeft_half hp
  have htake : (formatOffset s p).take 16 = padLeft 16 '0' (toDigitsMin 16 s) := by
    unfold formatOffset
    exact List.take_left' hl1
  have hdrop16 : (formatOffset s p).drop 16 = '_' :: padLeft 16 '0' (toDigitsMin 16 p) := by
    unfold formatOffset
    exact List.drop_left' hl1
  have hdrop17 : (formatOffset s p).drop 17 = padLeft 16 '0' (toDigitsMin 16 p) := by
    have : (formatOffset s p).drop 17 = ((formatOffset s p).drop 16).drop 1 := by
      rw [List.drop_drop]
    rw [this, hdrop16]
    rfl
  have hlen : (formatOffset s p).length = 33 := by
    unfold formatOffset
    simp only [List.length_append, List.length_cons]
    omega
  have hmid : (formatOffset s p)[16]? = some '_' := by
    have h16 : (16 : Nat) < (formatOffset s p).length := by omega
    rw [List.getElem?_eq_getElem h16]
    have := List.drop_eq_getElem_cons h16
    rw [hdrop16] at this
    exact congrArg some (List.head_eq_of_cons_eq this.symm)
  have hmatch : offsetRegexMatch (formatOffset s p) = true := by
    unfold offsetRegexMatch
    simp only [Bool.and_eq_true, beq_iff_eq, List.all_eq_true]
    exact ⟨⟨⟨hlen, by rw [htake]; exact hh1⟩, hmid⟩, by rw [hdrop17]; exact hh2⟩
  unfold parseOffset
  rw [if_pos hmatch, htake, hdrop17, hv1, hv2]

/-- `formatOffset` after `parseOffset` is the identity on regex-matching
offsets. -/
theorem formatOffset_parseOffset {l : List Char} (h : offsetRegexMatch l = true) :
    ∀ s p, parseOffset l = some ⟨s, p⟩ → formatOffset s p = l := by
  intro s p hparse
  obtain ⟨hsplit, hlen1, hlen2, hhex1, hhex2⟩ := offsetRegexMatch_structure h
  unfold parseOffset at hparse
  rw [if_pos h] at hparse
  injection hparse with hparse
  have hs : s = valDigits 16 (l.take 16) := by
    have := congrArg ParsedOffset.seq hparse
    exact this.symm
  have hp : p = valDigits 16 (l.drop 17) := by
    have := congrArg ParsedOffset.pos hparse
    exact this.symm
  subst hs hp
  unfold formatOffset
  have hne1 : l.take 16 ≠ [] := by
    intro hx
    rw [hx] at hlen1
    simp at hlen1
  have hne2 : l.drop 17 ≠ [] := by
    intro hx
    rw [hx] at hlen2
    simp at hlen2
  have h1 := padLeft_toDigitsMin_valDigits hne1 hhex1
  have h2 := padLeft_toDigitsMin_valDigits hne2 hhex2
  rw [hlen1] at h1
  rw [hlen2] at h2
  rw [h1, h2]
  exact hsplit.symm

/-- Canonical offsets with equal parses are equal. -/
theorem parseOffset_inj {a b : List Char} (ha : offsetRegexMatch a = true)
    (hb : offsetRegexMatch b = true) {pa pb : ParsedOffset}
    (hpa : parseOffset a = some pa) (hpb : parseOffset b = some pb)
    (heq : pa = pb) : a = b := by
  subst heq
  have h1 := formatOffset_parseOffset ha pa.seq pa.pos hpa
  have h2 := formatOffset_parseOffset hb pa.seq pa.pos hpb
  rw [← h1, ← h2]

end DurableStreams

namespace DurableStreams

/-- C5: for every valid canonical offset `o` (16 lowercase hex digits,
underscore, 16 lowercase hex digits), `formatOffset` applied to
`parseOffset o` returns `o` itself; the sentinel `"-1"` is accepted by
`isValidOffset` and normalized to the initial offset; and `compareOffsets`
is a total order on valid canonical offsets, ordering first by the parsed
S half and then by the parsed P half. -/
theorem claim_c5_offset_algebra (o a b : List Char)
    (ho : offsetRegexMatch o = true) (ha : offsetRegexMatch a = true)
    (hb : offsetRegexMatch b = true) :
    (∀ s p, parseOffset o = some ⟨s, p⟩ → formatOffset s p = o) ∧
    isValidOffset SENTINEL_OFFSET = true ∧
    normalizeOffset SENTINEL_OFFSET = INITIAL_OFFSET ∧
    (∀ pa pb, parseOffset a = some pa → parseOffset b = some pb →
      ((compareOffsets a b = 0 ↔ a = b) ∧
        (compareOffsets a b = -1 ↔ parsedLtProp pa pb) ∧
        (compareOffsets a b = 1 ↔ parsedLtProp pb pa))) ∧
    (compareOffsets a b = -1 ∨ compareOffsets a b = 0 ∨ compareOffsets a b = 1) ∧
    (∀ c, offsetRegexMatch c = true → compareOffsets a b = -1 →
      compareOffsets b c = -1 → compareOffsets a c = -1) := by
  have hchar : ∀ x y : List Char, offsetRegexMatch x = true → offsetRegexMatch y = true →
      ∀ px py, parseOffset x = some px → parseOffset y = some py →
        ((compareOffsets x y = 0 ↔ x = y) ∧
          (compareOffsets x y = -1 ↔ parsedLtProp px py) ∧
          (compareOffsets x y = 1 ↔ parsedLtProp py px)) := by
    intro x y hx hy px py hpx hpy
    have hcmp : compareOffsets x y =
        (if px.seq ≠ py.seq then (if px.seq < py.seq then (-1 : Int) else 1)
         else if px.pos ≠ py.pos then (if px.pos < py.pos then -1 else 1)
         else 0) := by
      unfold compareOffsets
      rw [hpx, hpy]
    refine ⟨?_, ?_, ?_⟩
    · constructor
      · intro h0
        rw [hcmp] at h0
        have hpe : px = py := by
          by_cases hs : px.seq = py.seq
          · by_cases hp : px.pos = py.pos
            · cases px; cases py; simp_all
            · rw [if_neg (by simpa using hs), if_pos hp] at h0
              split at h0 <;> omega
          · rw [if_pos hs] at h0
            split at h0 <;> omega
        exact parseOffset_inj hx hy hpx hpy hpe
      · intro hxy
        subst hxy
        have : px = py := by
          rw [hpx] at hpy
          exact Option.some_inj.mp hpy
        subst this
        rw [hcmp]
        simp
    · rw [hcmp]
      unfold parsedLtProp
      constructor
      · intro h1
        by_cases hs : px.seq = py.seq
        · by_cases hp : px.pos = py.pos
          · simp [hs, hp] at h1
          · rw [if_neg (by simpa using hs), if_pos hp] at h1
            split at h1
            · right; exact ⟨hs, by assumption⟩
            · omega
        · rw [if_pos hs] at h1
          split at h1
          · left; assumption
          · omega
      · intro hlt
        rcases hlt with hlt | ⟨hse, hpl⟩
        · rw [if_pos (by omega), if_pos hlt]
        · rw [if_neg (by omega), if_pos (by omega), if_pos hpl]
    · rw [hcmp]
      unfold parsedLtProp
      constructor
      · intro h1
        by_cases hs : px.seq = py.seq
        · by_cases hp : px.pos = py.pos
          · simp [hs, hp] at h1
          · rw [if_neg (by simpa using hs), if_pos hp] at h1
            split at h1
            · omega
            · right
              exact ⟨hs.symm, by omega⟩
        · rw [if_pos hs] at h1
          split at h1
          · omega
          · left; omega
      · intro hlt
        rcases hlt with hlt | ⟨hse, hpl⟩
        · rw [if_pos (by omega), if_neg (by omega)]
        · rw [if_neg (by omega), if_pos (by omega), if_neg (by omega)]
  obtain ⟨pa, hpa⟩ : ∃ pa, parseOffset a = some pa := by
    unfold parseOffset
    rw [if_pos ha]
    exact ⟨_, rfl⟩
  obtain ⟨pb, hpb⟩ : ∃ pb, parseOffset b = some pb := by
    unfold parseOffset
    rw [if_pos hb]
    exact ⟨_, rfl⟩
  refine ⟨formatOffset_parseOffset ho, by decide, by decide,
    hchar a b ha hb, ?_, ?_⟩
  · obtain ⟨_, hm1, hm2⟩ := hchar a b ha hb pa pb hpa hpb
    by_cases hab : parsedLtProp pa pb
    · exact Or.inl (hm1.mpr hab)
    · by_cases hba : parsedLtProp pb pa
      · exact Or.inr (Or.inr (hm2.mpr hba))
      · unfold parsedLtProp at hab hba
        have hpe : pa = pb := by
          cases pa; cases pb
          rw [ParsedOffset.mk.injEq]
          simp only at hab hba
          omega
        obtain ⟨hm0, _, _⟩ := hchar a b ha hb pa pb hpa hpb
        exact Or.inr (Or.inl (hm0.mpr (parseOffset_inj ha hb hpa hpb hpe)))
  · intro c hc h1 h2
    obtain ⟨pc, hpc⟩ : ∃ pc, parseOffset c = some pc := by
      unfold parseOffset
      rw [if_pos hc]
      exact ⟨_, rfl⟩
    obtain ⟨_, hab, _⟩ := hchar a b ha hb pa pb hpa hpb
    obtain ⟨_, hbc, _⟩ := hchar b c hb hc pb pc hpb hpc
    obtain ⟨_, hac, _⟩ := hchar a c ha hc pa pc hpa hpc
    have l1 := hab.mp h1
    have l2 := hbc.mp h2
    apply hac.mpr
    unfold parsedLtProp at l1 l2 ⊢
    omega

/-- Witness for C5 at concrete offsets. -/
theorem claim_c5_offset_algebra_witness :
    (offsetRegexMatch "000000000000000a_00000000000000ff".toList = true ∧
      offsetRegexMatch "0000000000000001_0000000000000002".toList = true ∧
      offsetRegexMatch "0000000000000002_0000000000000010".toList = true) ∧
    ((∀ s p, parseOffset "000000000000000a_00000000000000ff".toList = some ⟨s, p⟩ →
        formatOffset s p = "000000000000000a_00000000000000ff".toList) ∧
      isValidOffset SENTINEL_OFFSET = true ∧
      normalizeOffset SENTINEL_OFFSET = INITIAL_OFFSET ∧
      (∀ pa pb, parseOffset "0000000000000001_0000000000000002".toList = some pa →
        parseOffset "0000000000000002_0000000000000010".toList = some pb →
        ((compareOffsets "0000000000000001_0000000000000002".toList
            "0000000000000002_0000000000000010".toList = 0 ↔
            "0000000000000001_0000000000000002".toList =
              "0000000000000002_0000000000000010".toList) ∧
          (compareOffsets "0000000000000001_0000000000000002".toList
            "0000000000000002_0000000000000010".toList = -1 ↔ parsedLtProp pa pb) ∧
          (compareOffsets "0000000000000001_0000000000000002".toList
            "0000000000000002_0000000000000010".toList = 1 ↔ parsedLtProp pb pa))) ∧
      (compareOffsets "0000000000000001_0000000000000002".toList
          "0000000000000002_0000000000000010".toList = -1 ∨
        compareOffsets "0000000000000001_0000000000000002".toList
          "0000000000000002_0000000000000010".toList = 0 ∨
        compareOffsets "0000000000000001_0000000000000002".toList
          "0000000000000002_0000000000000010".toList = 1) ∧
      (∀ c, offsetRegexMatch c = true →
        compareOffsets "0000000000000001_0000000000000002".toList
          "0000000000000002_0000000000000010".toList = -1 →
        compareOffsets "0000000000000002_0000000000000010".toList c = -1 →
        compareOffsets "0000000000000001_0000000000000002".toList c = -1)) :=
  ⟨⟨by decide, by decide, by decide⟩,
    claim_c5_offset_algebra _ _ _ (by decide) (by decide) (by decide)⟩

end DurableStreams

namespace DurableStreams

/-! ## Base64 (platform `btoa`/`atob`, modelled from the spec: RFC 4648)

`btoa`/`atob` are platform builtins used by the path codec and the ETag
codec. They are modelled as standard base64 over byte lists; the URL-safe
unpadded variant is derived exactly as the source derives it (character
replacement and padding removal over the `btoa` output). -/

/-- Bytes → 6-bit groups (values < 64), including the short final group. -/
def encodeGroups : List Nat → List Nat
  | [] => []
  | [a] => [a / 4, a % 4 * 16]
  | [a, b] => [a / 4, a % 4 * 16 + b / 16, b % 16 * 4]
  | a :: b :: c :: rest =>
    a / 4 :: (a % 4 * 16 + b / 16) :: (b % 16 * 4 + c / 64) :: c % 64 :: encodeGroups rest

/-- 6-bit groups → bytes (inverse of `encodeGroups`). -/
def decodeGroups : List Nat → List Nat
  | v1 :: v2 :: v3 :: v4 :: rest =>
    (v1 * 4 + v2 / 16) :: (v2 % 16 * 16 + v3 / 4) :: (v3 % 4 * 64 + v4) :: decodeGroups rest
  | [v1, v2] => [v1 * 4 + v2 / 16]
  | [v1, v2, v3] => [v1 * 4 + v2 / 16, v2 % 16 * 16 + v3 / 4]
  | _ => []

theorem decodeGroups_encodeGroups :
    ∀ l : List Nat, (∀ x ∈ l, x < 256) → decodeGroups (encodeGroups l) = l
  | [], _ => rfl
  | [a], h => by
    have ha : a < 256 := h a (by simp)
    simp only [encodeGroups, decodeGroups, List.cons.injEq, and_true]
    omega
  | [a, b], h => by
    have ha : a < 256 := h a (by simp)
    have hb : b < 256 := h b (by simp)
    simp only [encodeGroups, decodeGroups, List.cons.injEq, and_true]
    omega
  | a :: b :: c :: rest, h => by
    have ha : a < 256 := h a (by simp)
    have hb : b < 256 := h b (by simp)
    have hc : c < 256 := h c (by simp)
    have ih := decodeGroups_encodeGroups rest fun x hx => h x (by simp [hx])
    simp only [encodeGroups, decodeGroups, List.cons.injEq]
    refine ⟨by omega, by omega, by omega, ih⟩

theorem encodeGroups_lt :
    ∀ l : List Nat, (∀ x ∈ l, x < 256) → ∀ d ∈ encodeGroups l, d < 64
  | [], _ => by simp [encodeGroups]
  | [a], h => by
    have ha : a < 256 := h a (by simp)
    simp only [encodeGroups, List.mem_cons, List.not_mem_nil, or_false]
    rintro d (rfl | rfl) <;> omega
  | [a, b], h => by
    have ha : a < 256 := h a (by simp)
    have hb : b < 256 := h b (by simp)
    simp only [encodeGroups, List.mem_cons, List.not_mem_nil, or_false]
    rintro d (rfl | rfl | rfl) <;> omega
  | a :: b :: c :: rest, h => by
    have ha : a < 256 := h a (by simp)
    have hb : b < 256 := h b (by simp)
    have hc : c < 256 := h c (by simp)
    have ih := encodeGroups_lt rest fun x hx => h x (by simp [hx])
    simp only [encodeGroups, List.mem_cons]
    rintro d (rfl | rfl | rfl | rfl | hd)
    · omega
    · omega
    · omega
    · omega
    · exact ih d hd

theorem encodeGroups_ne_nil : ∀ l : List Nat, l ≠ [] → encodeGroups l ≠ []
  | [], h => absurd rfl h
  | [_], _ => by simp [encodeGroups]
  | [_, _], _ => by simp [encodeGroups]
  | _ :: _ :: _ :: _, _ => by simp [encodeGroups]

/-- Standard base64 alphabet, position `n` (n < 64). -/
def b64CharStd (n : Nat) : Char :=
  if n < 26 then Char.ofNat (65 + n)
  else if n < 52 then Char.ofNat (97 + (n - 26))
  else if n < 62 then Char.ofNat (48 + (n - 52))
  else if n = 62 then '+'
  else '/'

/-- Value of a standard-alphabet base64 character (0 for others). -/
def b64ValStd (c : Char) : Nat :=
  if 'A' ≤ c ∧ c ≤ 'Z' then c.toNat - 65
  else if 'a' ≤ c ∧ c ≤ 'z' then c.toNat - 97 + 26
  else if '0' ≤ c ∧ c ≤ '9' then c.toNat - 48 + 52
  else if c = '+' then 62
  else if c = '/' then 63
  else 0

theorem b64ValStd_b64CharStd {d : Nat} (h : d < 64) : b64ValStd (b64CharStd d) = d := by
  interval_cases d <;> rfl

theorem b64CharStd_ne_eq {d : Nat} (h : d < 64) :
    b64CharStd d ≠ '=' ∧ b64CharStd d ≠ ':' ∧ b64CharStd d ≠ '"' := by
  interval_cases d <;> exact ⟨by decide, by decide, by decide⟩

/-- `btoa` (modelled): standard base64 with `=` padding. -/
def btoaChars (bytes : List Nat) : List Char :=
  (encodeGroups bytes).map b64CharStd ++
    List.replicate ((4 - (encodeGroups bytes).length % 4) % 4) '='

/-- `atob` (modelled): strips trailing `=` and decodes; `none` when the body
contains non-alphabet characters (the builtin throws there). -/
def atobChars (s : List Char) : Option (List Nat) :=
  if (s.takeWhile (fun c => c ≠ '=')).all (fun c => b64CharStd (b64ValStd c) = c) &&
      (s.drop (s.takeWhile (fun c => c ≠ '=')).length).all (fun c => c = '=') then
    some (decodeGroups ((s.takeWhile (fun c => c ≠ '=')).map b64ValStd))
  else none

theorem takeWhile_append_all {p : Char → Bool} {xs ys : List Char}
    (h : ∀ a ∈ xs, p a = true) :
    (xs ++ ys).takeWhile p = xs ++ ys.takeWhile p := by
  induction xs with
  | nil => rfl
  | cons x xs ih =>
    simp only [List.cons_append, List.takeWhile_cons, h x (by simp)]
    rw [ih fun a ha => h a (by simp [ha])]
    simp

theorem takeWhile_replicate_eq_nil {p : Char → Bool} {c : Char} (h : p c = false) (n : Nat) :
    (List.replicate n c).takeWhile p = [] := by
  cases n with
  | zero => rfl
  | succ n => simp [List.replicate_succ, List.takeWhile_cons, h]

/-- `atob ∘ btoa` is the identity on byte lists. -/
theorem atobChars_btoaChars {bytes : List Nat} (h : ∀ x ∈ bytes, x < 256) :
    atobChars (btoaChars bytes) = some bytes := by
  have hdig := encodeGroups_lt bytes h
  have hne : ∀ c ∈ (encodeGroups bytes).map b64CharStd, decide (c ≠ '=') = true := by
    intro c hc
    rcases List.mem_map.mp hc with ⟨d, hd, rfl⟩
    exact decide_eq_true (b64CharStd_ne_eq (hdig d hd)).1
  have hbody : (btoaChars bytes).takeWhile (fun c => c ≠ '=') =
      (encodeGroups bytes).map b64CharStd := by
    unfold btoaChars
    rw [takeWhile_append_all hne, takeWhile_replicate_eq_nil (by simp)]
    simp
  unfold atobChars
  rw [hbody]
  have hdropped : (btoaChars bytes).drop ((encodeGroups bytes).map b64CharStd).length =
      List.replicate ((4 - (encodeGroups bytes).length % 4) % 4) '=' := by
    unfold btoaChars
    exact List.drop_left _ _
  rw [hdropped]
  have hcond1 : ((encodeGroups bytes).map b64CharStd).all
      (fun c => b64CharStd (b64ValStd c) = c) = true := by
    rw [List.all_eq_true]
    intro c hc
    rcases List.mem_map.mp hc with ⟨d, hd, rfl⟩
    simp [b64ValStd_b64CharStd (hdig d hd)]
  have hcond2 : (List.replicate ((4 - (encodeGroups bytes).length % 4) % 4) '=').all
      (fun c => c = '=') = true := by
    rw [List.all_eq_true]
    intro c hc
    rcases List.eq_of_mem_replicate hc with rfl
    simp
  rw [hcond1, hcond2]
  simp only [Bool.and_self, if_true]
  rw [List.map_map]
  have hmap : (encodeGroups bytes).map (b64ValStd ∘ b64CharStd) = encodeGroups bytes := by
    apply (List.map_congr_left ?_).trans (List.map_id _)
    intro d hd
    exact b64ValStd_b64CharStd (hdig d hd)
  rw [hmap, decodeGroups_encodeGroups bytes h]

end DurableStreams

namespace DurableStreams

/-- `+ → -` and `/ → _` (the encode-side replacements of base64UrlEncode). -/
def urlSwap (c : Char) : Char :=
  if c = '+' then '-' else if c = '/' then '_' else c

/-- `- → +` and `_ → /` (the decode-side replacements of base64UrlDecode). -/
def urlUnswap (c : Char) : Char :=
  if c = '-' then '+' else if c = '_' then '/' else c

/-- `base64UrlEncode`: `btoa`, then URL-safe replacements, then padding
removal, exactly as in the source. -/
def base64UrlEncode (bytes : List Nat) : List Char :=
  ((btoaChars bytes).map urlSwap).filter (fun c => c ≠ '=')

/-- `base64UrlDecode`: reverse replacements, re-pad, `atob` (the source lets
the builtin throw on garbage; the model returns `[]` there, a case never
reached by the theorems below). -/
def base64UrlDecode (s : List Char) : List Nat :=
  match atobChars (s.map urlUnswap ++
      List.replicate ((4 - (s.map urlUnswap).length % 4) % 4) '=') with
  | some bytes => bytes
  | none => []

theorem urlChar_props {d : Nat} (h : d < 64) :
    urlSwap (b64CharStd d) ≠ '=' ∧ urlSwap (b64CharStd d) ≠ '~' ∧
      urlUnswap (urlSwap (b64CharStd d)) = b64CharStd d := by
  interval_cases d <;> exact ⟨by decide, by decide, by decide⟩

/-- The URL-safe encoding is the swapped alphabet on the 6-bit groups. -/
theorem base64UrlEncode_eq {bytes : List Nat} (h : ∀ x ∈ bytes, x < 256) :
    base64UrlEncode bytes = (encodeGroups bytes).map (fun d => urlSwap (b64CharStd d)) := by
  have hdig := encodeGroups_lt bytes h
  unfold base64UrlEncode btoaChars
  rw [List.map_append, List.map_map, List.filter_append]
  have h1 : ((encodeGroups bytes).map (urlSwap ∘ b64CharStd)).filter (fun c => c ≠ '=') =
      (encodeGroups bytes).map (urlSwap ∘ b64CharStd) := by
    rw [List.filter_eq_self]
    intro c hc
    rcases List.mem_map.mp hc with ⟨d, hd, rfl⟩
    exact decide_eq_true (urlChar_props (hdig d hd)).1
  have h2 : ((List.replicate ((4 - (encodeGroups bytes).length % 4) % 4) '=').map
      urlSwap).filter (fun c => c ≠ '=') = [] := by
    rw [List.map_replicate]
    have : urlSwap '=' = '=' := by decide
    rw [this, List.filter_eq_nil_iff]
    intro c hc
    rcases List.eq_of_mem_replicate hc with rfl
    simp
  rw [h1, h2, List.append_nil]
  rfl

/-- Decoding inverts the URL-safe encoding. -/
theorem base64UrlDecode_base64UrlEncode {bytes : List Nat} (h : ∀ x ∈ bytes, x < 256) :
    base64UrlDecode (base64UrlEncode bytes) = bytes := by
  have hdig := encodeGroups_lt bytes h
  unfold base64UrlDecode
  rw [base64UrlEncode_eq h, List.map_map]
  have hswap : (encodeGroups bytes).map (urlUnswap ∘ fun d => urlSwap (b64CharStd d)) =
      (encodeGroups bytes).map b64CharStd := by
    apply List.map_congr_left
    intro d hd
    exact (urlChar_props (hdig d hd)).2.2
  rw [hswap]
  have hlen : ((encodeGroups bytes).map b64CharStd).length = (encodeGroups bytes).length := by
    simp
  rw [hlen]
  have : (encodeGroups bytes).map b64CharStd ++
      List.replicate ((4 - (encodeGroups bytes).length % 4) % 4) '=' = btoaChars bytes := rfl
  rw [this, atobChars_btoaChars h]

/-! ## Stream path codec (paths.ts) -/

/-- `String.prototype.lastIndexOf` for a single character. -/
def lastIndexOfChar (c : Char) (l : List Char) : Option Nat :=
  match (l.reverse).findIdx? (fun x => x = c) with
  | none => none
  | some i => some (l.length - 1 - i)

theorem lastIndexOfChar_eq_none {c : Char} {l : List Char} (h : ∀ x ∈ l, x ≠ c) :
    lastIndexOfChar c l = none := by
  unfold lastIndexOfChar
  have : (l.reverse).findIdx? (fun x => x = c) = none := by
    rw [List.findIdx?_eq_none_iff]
    intro x hx
    simpa using h x (List.mem_reverse.mp hx)
  rw [this]

/-- `encodeStreamPath`. `sha` stands for the platform `crypto.subtle`
SHA-256 digest with hex rendering and the 16-character slice applied inside
the source's `sha256Hex`. -/
def encodeStreamPath (sha : List Nat → List Char) (path : List Nat) : List Char :=
  if 200 < (base64UrlEncode path).length then
    (base64UrlEncode path).take 180 ++ '~' :: sha path
  else
    base64UrlEncode path

/-- `decodeStreamPath`: strip a trailing `~`-plus-16-hex-chars suffix if
present, then base64url-decode. -/
def decodeStreamPath (encoded : List Char) : List Nat :=
  base64UrlDecode
    (match lastIndexOfChar '~' encoded with
     | none => encoded
     | some tildeIndex =>
       if (encoded.drop (tildeIndex + 1)).length = 16 &&
           (encoded.drop (tildeIndex + 1)).all isHexLower then
         encoded.take tildeIndex
       else encoded)

/-- C6: decode inverts encode for every path whose URL-safe unpadded base64
is at most 200 characters; longer paths encode to the first 180 base64
characters, a tilde, and the 16-hex-character SHA-256 prefix; and the
encoding is deterministic. -/
theorem claim_c6_path_codec (sha : List Nat → List Char) (p : List Nat)
    (hp : ∀ x ∈ p, x < 256) :
    ((base64UrlEncode p).length ≤ 200 →
      decodeStreamPath (encodeStreamPath sha p) = p) ∧
    (200 < (base64UrlEncode p).length →
      encodeStreamPath sha p = (base64UrlEncode p).take 180 ++ '~' :: sha p) ∧
    (∀ q : List Nat, p = q → encodeStreamPath sha p = encodeStreamPath sha q) := by
  refine ⟨?_, ?_, ?_⟩
  · intro hle
    have henc : encodeStreamPath sha p = base64UrlEncode p := by
      unfold encodeStreamPath
      rw [if_neg (by omega)]
    rw [henc]
    unfold decodeStreamPath
    have hnotilde : lastIndexOfChar '~' (base64UrlEncode p) = none := by
      apply lastIndexOfChar_eq_none
      intro x hx
      rw [base64UrlEncode_eq hp] at hx
      rcases List.mem_map.mp hx with ⟨d, hd, rfl⟩
      exact (urlChar_props (encodeGroups_lt p hp d hd)).2.1
    rw [hnotilde]
    exact base64UrlDecode_base64UrlEncode hp
  · intro hgt
    unfold encodeStreamPath
    rw [if_pos hgt]
  · intro q hpq
    rw [hpq]

set_option maxRecDepth 100000 in
/-- Witness for C6: a short path round-trips; a long path truncates. -/
theorem claim_c6_path_codec_witness :
    ((∀ x ∈ [97, 98, 99], x < 256) ∧
      (base64UrlEncode [97, 98, 99]).length ≤ 200 ∧
      (∀ x ∈ List.replicate 151 (97 : Nat), x < 256) ∧
      200 < (base64UrlEncode (List.replicate 151 97)).length) ∧
    decodeStreamPath (encodeStreamPath (fun _ => "0123456789abcdef".toList) [97, 98, 99])
      = [97, 98, 99] ∧
    encodeStreamPath (fun _ => "0123456789abcdef".toList) (List.replicate 151 97)
      = (base64UrlEncode (List.replicate 151 97)).take 180 ++
          '~' :: "0123456789abcdef".toList :=
  ⟨⟨by decide, by decide, by decide, by decide⟩,
    (claim_c6_path_codec (fun _ => "0123456789abcdef".toList) [97, 98, 99]
      (by decide)).1 (by decide),
    (claim_c6_path_codec (fun _ => "0123456789abcdef".toList) (List.replicate 151 97)
      (by decide)).2.1 (by decide)⟩

end DurableStreams

namespace DurableStreams

/-! ## ETag codec (protocol.ts) -/

structure ParsedETag where
  path : List Nat
  startOffset : List Char
  endOffset : List Char
  deriving DecidableEq, Repr

/-- `generateETag`: `"btoa(path):startOffset:endOffset"` in quotes. The path
is embedded as its character codes (`btoa` requires all ≤ 255). -/
def generateETag (path : List Nat) (startOffset endOffset : List Char) : List Char :=
  '"' :: (btoaChars path ++ ':' :: (startOffset ++ ':' :: (endOffset ++ ['"'])))

/-- Final stage of the ETag regex `([^"]+)"$` on the residue `r4`, plus the
source's `atob` call on the first captured group (`null` when it throws). -/
def parseETagTail (g1 g2 r4 : List Char) : Option ParsedETag :=
  if g1 ≠ [] ∧ g2 ≠ [] ∧ r4.dropLast ≠ [] ∧ r4.getLast? = some '"' ∧
      (∀ c ∈ r4.dropLast, c ≠ '"') then
    match atobChars g1 with
    | some pathBytes => some ⟨pathBytes, g2, r4.dropLast⟩
    | none => none
  else none

/-- Middle stage: capture `([^:]+)` up to the second colon. -/
def parseETagAfterFirst (g1 r2 : List Char) : Option ParsedETag :=
  if (r2.drop ((r2.takeWhile (fun c => c ≠ ':')).length)).head? = some ':' then
    parseETagTail g1 (r2.takeWhile (fun c => c ≠ ':'))
      ((r2.drop ((r2.takeWhile (fun c => c ≠ ':')).length)).drop 1)
  else none

/-- `parseETag`: the regex `^"([^:]+):([^:]+):([^"]+)"$` followed by `atob`
on the first group. The greedy `[^:]+` groups necessarily end at the first
and second colons, which is how the stages below capture them. -/
def parseETag (etag : List Char) : Option ParsedETag :=
  if etag.head? = some '"' then
    if ((etag.drop 1).drop (((etag.drop 1).takeWhile (fun c => c ≠ ':')).length)).head?
        = some ':' then
      parseETagAfterFirst ((etag.drop 1).takeWhile (fun c => c ≠ ':'))
        (((etag.drop 1).drop (((etag.drop 1).takeWhile (fun c => c ≠ ':')).length)).drop 1)
    else none
  else none

theorem isHexLower_ne {c : Char} (h : isHexLower c = true) : c ≠ ':' ∧ c ≠ '"' := by
  have hm : c ∈ hexChars := by
    simpa [isHexLower, List.contains_iff_exists_mem_beq] using h
  fin_cases hm <;> exact ⟨by decide, by decide⟩

/-- Characters of a canonical offset are never colons or quotes. -/
theorem offset_chars_ne {o : List Char} (h : offsetRegexMatch o = true) :
    ∀ c ∈ o, c ≠ ':' ∧ c ≠ '"' := by
  obtain ⟨hsplit, _, _, hhex1, hhex2⟩ := offsetRegexMatch_structure h
  intro c hc
  rw [hsplit] at hc
  rcases List.mem_append.mp hc with hc | hc
  · exact isHexLower_ne (hhex1 c hc)
  · rcases List.mem_cons.mp hc with rfl | hc
    · exact ⟨by decide, by decide⟩
    · exact isHexLower_ne (hhex2 c hc)

theorem btoaChars_ne_colon {bytes : List Nat} (h : ∀ x ∈ bytes, x < 256) :
    ∀ c ∈ btoaChars bytes, c ≠ ':' := by
  intro c hc
  unfold btoaChars at hc
  rcases List.mem_append.mp hc with hc | hc
  · rcases List.mem_map.mp hc with ⟨d, hd, rfl⟩
    exact (b64CharStd_ne_eq (encodeGroups_lt bytes h d hd)).2.1
  · rcases List.eq_of_mem_replicate hc with rfl
    decide

theorem btoaChars_ne_nil {bytes : List Nat} (hne : bytes ≠ []) :
    btoaChars bytes ≠ [] := by
  unfold btoaChars
  intro hx
  rcases List.append_eq_nil.mp hx with ⟨h1, _⟩
  exact encodeGroups_ne_nil bytes hne (List.map_eq_nil_iff.mp h1)

/-- C10: `parseETag` inverts `generateETag` for every non-empty path of
bytes (code points ≤ 255) and every pair of canonical offsets, returning
exactly the path and the two offsets; for the empty path the round-trip
fails (`parseETag` returns `null` on the generated tag). -/
theorem claim_c10_etag_roundtrip (path : List Nat) (s e : List Char)
    (hp : ∀ x ∈ path, x < 256)
    (hs : offsetRegexMatch s = true) (he : offsetRegexMatch e = true) :
    (path ≠ [] → parseETag (generateETag path s e) = some ⟨path, s, e⟩) ∧
    parseETag (generateETag [] s e) = none := by
  obtain ⟨_, hslen, _, _, _⟩ := offsetRegexMatch_structure hs
  obtain ⟨_, _, helen2, _, _⟩ := offsetRegexMatch_structure he
  have hsne : s ≠ [] := by
    intro hx
    rw [hx] at hslen
    simp at hslen
  have hene : e ≠ [] := by
    intro hx
    rw [hx] at helen2
    simp at helen2
  have hscolon : ∀ c ∈ s, decide (c ≠ ':') = true :=
    fun c hc => decide_eq_true (offset_chars_ne hs c hc).1
  have hequote : ∀ c ∈ e, c ≠ '"' := fun c hc => (offset_chars_ne he c hc).2
  have hg2 : (s ++ ':' :: (e ++ ['"'])).takeWhile (fun c => c ≠ ':') = s := by
    rw [takeWhile_append_all hscolon]
    simp [List.takeWhile_cons]
  have hd2 : (s ++ ':' :: (e ++ ['"'])).drop s.length = ':' :: (e ++ ['"']) :=
    List.drop_left _ _
  have hg3 : (e ++ ['"']).dropLast = e := by
    simp
  have hlast : (e ++ ['"']).getLast? = some '"' := by
    rw [List.getLast?_append]
    rfl
  have hafter : ∀ g1 : List Char, parseETagAfterFirst g1 (s ++ ':' :: (e ++ ['"'])) =
      parseETagTail g1 s (e ++ ['"']) := by
    intro g1
    unfold parseETagAfterFirst
    rw [hg2, hd2]
    rfl
  have htail : path ≠ [] → parseETagTail (btoaChars path) s (e ++ ['"']) =
      some ⟨path, s, e⟩ := by
    intro hpne
    unfold parseETagTail
    rw [if_pos ⟨btoaChars_ne_nil hpne, hsne, by rw [hg3]; exact hene, hlast,
      by rw [hg3]; exact hequote⟩]
    rw [atobChars_btoaChars hp, hg3]
  constructor
  · intro hpne
    have hbcolon : ∀ c ∈ btoaChars path, decide (c ≠ ':') = true :=
      fun c hc => decide_eq_true (btoaChars_ne_colon hp c hc)
    unfold generateETag parseETag
    have hhead : ('"' :: (btoaChars path ++ ':' ::
        (s ++ ':' :: (e ++ ['"'])))).head? = some '"' := rfl
    rw [hhead, if_pos rfl]
    have hdrop1 : ('"' :: (btoaChars path ++ ':' ::
        (s ++ ':' :: (e ++ ['"'])))).drop 1 =
        btoaChars path ++ ':' :: (s ++ ':' :: (e ++ ['"'])) := rfl
    rw [hdrop1]
    have hg1 : (btoaChars path ++ ':' :: (s ++ ':' :: (e ++ ['"']))).takeWhile
        (fun c => c ≠ ':') = btoaChars path := by
      rw [takeWhile_append_all hbcolon]
      simp [List.takeWhile_cons]
    rw [hg1]
    have hd1 : (btoaChars path ++ ':' :: (s ++ ':' :: (e ++ ['"']))).drop
        (btoaChars path).length = ':' :: (s ++ ':' :: (e ++ ['"'])) :=
      List.drop_left _ _
    rw [hd1]
    have : (':' :: (s ++ ':' :: (e ++ ['"']))).head? = some ':' := rfl
    rw [this, if_pos rfl]
    have : (':' :: (s ++ ':' :: (e ++ ['"']))).drop 1 = s ++ ':' :: (e ++ ['"']) := rfl
    rw [this, hafter (btoaChars path), htail hpne]
  · unfold generateETag parseETag
    have hb0 : btoaChars [] = [] := rfl
    rw [hb0]
    simp only [List.nil_append]
    have hhead : (('"' :: (':' :: (s ++ ':' :: (e ++ ['"'])))) :
        List Char).head? = some '"' := rfl
    rw [hhead, if_pos rfl]
    have hdrop1 : (('"' :: (':' :: (s ++ ':' :: (e ++ ['"'])))) :
        List Char).drop 1 = ':' :: (s ++ ':' :: (e ++ ['"'])) := rfl
    rw [hdrop1]
    have hg1 : ((':' :: (s ++ ':' :: (e ++ ['"']))) : List Char).takeWhile
        (fun c => c ≠ ':') = [] := by
      simp [List.takeWhile_cons]
    rw [hg1]
    simp only [List.length_nil, List.drop_zero]
    have : ((':' :: (s ++ ':' :: (e ++ ['"']))) : List Char).head? = some ':' := rfl
    rw [this, if_pos rfl]
    have : ((':' :: (s ++ ':' :: (e ++ ['"']))) : List Char).drop 1 =
        s ++ ':' :: (e ++ ['"']) := rfl
    rw [this, hafter []]
    unfold parseETagTail
    rw [if_neg]
    intro hcond
    exact hcond.1 rfl

/-- Witness for C10 at a concrete path and offsets. -/
theorem claim_c10_etag_roundtrip_witness :
    ((∀ x ∈ [104, 105], x < 256) ∧
      offsetRegexMatch "0000000000000000_0000000000000000".toList = true ∧
      offsetRegexMatch "0000000000000001_0000000000000002".toList = true ∧
      [104, 105] ≠ ([] : List Nat)) ∧
    parseETag (generateETag [104, 105] "0000000000000000_0000000000000000".toList
        "0000000000000001_0000000000000002".toList) =
      some ⟨[104, 105], "0000000000000000_0000000000000000".toList,
        "0000000000000001_0000000000000002".toList⟩ ∧
    parseETag (generateETag [] "0000000000000000_0000000000000000".toList
        "0000000000000001_0000000000000002".toList) = none :=
  ⟨⟨by decide, by decide, by decide, by decide⟩,
    (claim_c10_etag_roundtrip [104, 105] "0000000000000000_0000000000000000".toList
      "0000000000000001_0000000000000002".toList (by decide) (by decide) (by decide)).1
      (by decide),
    (claim_c10_etag_roundtrip [104, 105] "0000000000000000_0000000000000000".toList
      "0000000000000001_0000000000000002".toList (by decide) (by decide) (by decide)).2⟩

end DurableStreams

namespace DurableStreams

/-! ## Cursor algebra (cursor.ts)

`Date.now()` and the epoch's parsed milliseconds are passed as parameters
`now` and `epochMs`; `Math.random()` enters only through
`jitterSeconds = 1 + floor(random * 3600)`, passed as a parameter subject to
`1 ≤ jitterSeconds ≤ 3600`. -/

def DEFAULT_CURSOR_INTERVAL_SECONDS : Nat := 20

theorem isDecDigit_digitChar {d : Nat} (h : d < 10) : isDecDigit (Nat.digitChar d) = true := by
  interval_cases d <;> rfl

theorem toDigitsMin_dec (n : Nat) : ∀ c ∈ toDigitsMin 10 n, isDecDigit c = true := by
  induction n using Nat.strong_induction_on with
  | _ n ih =>
    rw [toDigitsMin_eq]
    by_cases hcond : 1 < 10 ∧ 10 ≤ n
    · rw [if_pos hcond]
      intro c hc
      rcases List.mem_append.mp hc with hc | hc
      · exact ih (n / 10) (Nat.div_lt_self (by omega) (by omega)) c hc
      · rcases List.mem_singleton.mp hc with rfl
        exact isDecDigit_digitChar (Nat.mod_lt _ (by omega))
    · rw [if_neg hcond]
      intro c hc
      rcases List.mem_singleton.mp hc with rfl
      exact isDecDigit_digitChar (Nat.mod_lt _ (by omega))

theorem valDigits_toDigitsMin_dec (n : Nat) : valDigits 10 (toDigitsMin 10 n) = n := by
  induction n using Nat.strong_induction_on with
  | _ n ih =>
    rw [toDigitsMin_eq]
    by_cases hcond : 1 < 10 ∧ 10 ≤ n
    · rw [if_pos hcond]
      rw [valDigits_append_singleton, ih (n / 10) (Nat.div_lt_self (by omega) (by omega)),
        digitVal_digitChar (by omega : n % 10 < 16)]
      omega
    · rw [if_neg hcond]
      have : valDigits 10 [Nat.digitChar (n % 10)] = n % 10 := by
        simp [valDigits, digitVal_digitChar (by omega : n % 10 < 16)]
      rw [this]
      omega

theorem toDigitsMin_ne_nil (b n : Nat) : toDigitsMin b n ≠ [] := by
  rw [toDigitsMin_eq]
  by_cases hcond : 1 < b ∧ b ≤ n
  · rw [if_pos hcond]
    simp
  · rw [if_neg hcond]
    simp

/-- `String(i)` for an integer (platform rendering). -/
def intToString (i : Int) : List Char :=
  if i < 0 then '-' :: toDigitsMin 10 i.natAbs else toDigitsMin 10 i.toNat

/-- Leading run of decimal digits (core of `Number.parseInt(s, 10)`);
`none` when there is no digit. -/
def parseDecPrefix (s : List Char) : Option Nat :=
  if s.takeWhile isDecDigit = [] then none
  else some (valDigits 10 (s.takeWhile isDecDigit))

/-- `Number.parseInt(s, 10)` (platform builtin, modelled): skip spaces,
optional sign, leading decimal digits; `none` stands for `NaN`. -/
def parseIntJs (s : List Char) : Option Int :=
  if (s.dropWhile (fun c => c = ' ')).head? = some '-' then
    (parseDecPrefix ((s.dropWhile (fun c => c = ' ')).drop 1)).map (fun n => -(n : Int))
  else if (s.dropWhile (fun c => c = ' ')).head? = some '+' then
    (parseDecPrefix ((s.dropWhile (fun c => c = ' ')).drop 1)).map (fun n => (n : Int))
  else
    (parseDecPrefix (s.dropWhile (fun c => c = ' '))).map (fun n => (n : Int))

theorem takeWhile_all {p : Char → Bool} {l : List Char} (h : ∀ a ∈ l, p a = true) :
    l.takeWhile p = l := by
  induction l with
  | nil => rfl
  | cons x xs ih =>
    rw [List.takeWhile_cons, if_pos (h x (by simp))]
    rw [ih fun a ha => h a (by simp [ha])]

theorem parseDecPrefix_toDigitsMin (n : Nat) :
    parseDecPrefix (toDigitsMin 10 n) = some n := by
  unfold parseDecPrefix
  rw [takeWhile_all (toDigitsMin_dec n)]
  rw [if_neg (toDigitsMin_ne_nil 10 n), valDigits_toDigitsMin_dec]

/-- `Number.parseInt` inverts `String(−)` on integers. -/
theorem parseIntJs_intToString (i : Int) : parseIntJs (intToString i) = some i := by
  by_cases hneg : i < 0
  · unfold intToString
    rw [if_pos hneg]
    unfold parseIntJs
    have hd : (('-' :: toDigitsMin 10 i.natAbs).dropWhile (fun c => c = ' '))
        = '-' :: toDigitsMin 10 i.natAbs := by
      rw [List.dropWhile_cons]
      simp
    rw [hd]
    have : (('-' :: toDigitsMin 10 i.natAbs) : List Char).head? = some '-' := rfl
    rw [this, if_pos rfl]
    have : (('-' :: toDigitsMin 10 i.natAbs) : List Char).drop 1 = toDigitsMin 10 i.natAbs := rfl
    rw [this, parseDecPrefix_toDigitsMin]
    show some (-(i.natAbs : Int)) = some i
    congr 1
    omega
  · unfold intToString
    rw [if_neg hneg]
    unfold parseIntJs
    obtain ⟨c, rest, hcons⟩ : ∃ c rest, toDigitsMin 10 i.toNat = c :: rest := by
      rcases hx : toDigitsMin 10 i.toNat with _ | ⟨c, rest⟩
      · exact absurd hx (toDigitsMin_ne_nil 10 i.toNat)
      · exact ⟨c, rest, rfl⟩
    have hcdec : isDecDigit c = true := by
      have := toDigitsMin_dec i.toNat c (by rw [hcons]; simp)
      exact this
    have hcne : ∀ x : Char, isDecDigit x = true → x ≠ ' ' ∧ x ≠ '-' ∧ x ≠ '+' := by
      intro x hx
      have hm : x ∈ decChars := by
        simpa [isDecDigit, List.contains_iff_exists_mem_beq] using hx
      fin_cases hm <;> exact ⟨by decide, by decide, by decide⟩
    have hd : ((toDigitsMin 10 i.toNat).dropWhile (fun c => c = ' '))
        = toDigitsMin 10 i.toNat := by
      rw [hcons, List.dropWhile_cons]
      simp [(hcne c hcdec).1]
    rw [hd]
    have hh1 : (toDigitsMin 10 i.toNat).head? ≠ some '-' := by
      rw [hcons]
      simp [(hcne c hcdec).2.1]
    have hh2 : (toDigitsMin 10 i.toNat).head? ≠ some '+' := by
      rw [hcons]
      simp [(hcne c hcdec).2.2]
    rw [if_neg hh1, if_neg hh2, parseDecPrefix_toDigitsMin]
    show some ((i.toNat : Int)) = some i
    congr 1
    omega

/-- `calculateCursor`: decimal rendering of
`Math.floor((now − epochMs) / (intervalSeconds * 1000))`. -/
def calculateCursor (now epochMs : Int) (intervalSeconds : Nat) : List Char :=
  intToString (Int.fdiv (now - epochMs) (intervalSeconds * 1000))

/-- `generateJitterIntervals`: `max(1, ceil(jitterSeconds / intervalSeconds))`. -/
def generateJitterIntervals (jitterSeconds intervalSeconds : Nat) : Nat :=
  max 1 ((jitterSeconds + intervalSeconds - 1) / intervalSeconds)

/-- `generateResponseCursor`. The source parses `currentCursor` back with
`parseInt` (always numeric); the unreachable `NaN` arm returns the current
cursor. -/
def generateResponseCursor (now epochMs : Int) (intervalSeconds jitterSeconds : Nat)
    (clientCursor : Option (List Char)) : List Char :=
  match clientCursor with
  | none => calculateCursor now epochMs intervalSeconds
  | some s =>
    if s = [] then calculateCursor now epochMs intervalSeconds
    else
      match parseIntJs s with
      | none => calculateCursor now epochMs intervalSeconds
      | some clientInterval =>
        match parseIntJs (calculateCursor now epochMs intervalSeconds) with
        | none => calculateCursor now epochMs intervalSeconds
        | some currentInterval =>
          if clientInterval < currentInterval then
            calculateCursor now epochMs intervalSeconds
          else
            intToString (clientInterval +
              (generateJitterIntervals jitterSeconds intervalSeconds : Int))

/-- C7: `generateResponseCursor` returns the current interval number when the
client cursor is absent, empty, non-numeric, or strictly behind; otherwise it
returns the parsed client cursor plus a jitter of at least one interval,
hence a value strictly greater than the client's cursor. -/
theorem claim_c7_response_cursor (now epochMs : Int) (intervalSeconds jitterSeconds : Nat)
    (hint : 0 < intervalSeconds) (hjit : 1 ≤ jitterSeconds) :
    (generateResponseCursor now epochMs intervalSeconds jitterSeconds none =
      calculateCursor now epochMs intervalSeconds) ∧
    (∀ s, parseIntJs s = none →
      generateResponseCursor now epochMs intervalSeconds jitterSeconds (some s) =
        calculateCursor now epochMs intervalSeconds) ∧
    (∀ s ci, parseIntJs s = some ci →
      ci < Int.fdiv (now - epochMs) (intervalSeconds * 1000) →
      generateResponseCursor now epochMs intervalSeconds jitterSeconds (some s) =
        calculateCursor now epochMs intervalSeconds) ∧
    (∀ s ci, parseIntJs s = some ci →
      Int.fdiv (now - epochMs) (intervalSeconds * 1000) ≤ ci →
      generateResponseCursor now epochMs intervalSeconds jitterSeconds (some s) =
        intToString (ci + (generateJitterIntervals jitterSeconds intervalSeconds : Int)) ∧
      1 ≤ generateJitterIntervals jitterSeconds intervalSeconds ∧
      ci < ci + (generateJitterIntervals jitterSeconds intervalSeconds : Int)) := by
  have hcur : parseIntJs (calculateCursor now epochMs intervalSeconds) =
      some (Int.fdiv (now - epochMs) (intervalSeconds * 1000)) := by
    unfold calculateCursor
    exact parseIntJs_intToString _
  have hj1 : 1 ≤ generateJitterIntervals jitterSeconds intervalSeconds := by
    unfold generateJitterIntervals
    omega
  refine ⟨rfl, ?_, ?_, ?_⟩
  · intro s hnone
    by_cases hnil : s = []
    · simp only [generateResponseCursor, if_pos hnil]
    · simp only [generateResponseCursor, if_neg hnil, hnone]
  · intro s ci hsome hlt
    have hnil : ¬s = [] := by
      intro hx
      rw [hx] at hsome
      have hz : parseIntJs ([] : List Char) = none := rfl
      rw [hz] at hsome
      exact Option.noConfusion hsome
    simp only [generateResponseCursor, if_neg hnil, hsome, hcur]
    rw [if_pos hlt]
  · intro s ci hsome hge
    have hnil : ¬s = [] := by
      intro hx
      rw [hx] at hsome
      have hz : parseIntJs ([] : List Char) = none := rfl
      rw [hz] at hsome
      exact Option.noConfusion hsome
    refine ⟨?_, hj1, by omega⟩
    simp only [generateResponseCursor, if_neg hnil, hsome, hcur]
    rw [if_neg (by omega)]

/-- Witness for C7 at concrete times and cursors. -/
theorem claim_c7_response_cursor_witness :
    ((0 : Nat) < 20 ∧ (1 : Nat) ≤ 700 ∧
      parseIntJs "abc".toList = none ∧
      parseIntJs "3".toList = some 3 ∧
      parseIntJs "99".toList = some 99 ∧
      (3 : Int) < Int.fdiv (100000 - 0) (20 * 1000) ∧
      Int.fdiv (100000 - 0) (20 * 1000) ≤ 99) ∧
    (generateResponseCursor 100000 0 20 700 none = calculateCursor 100000 0 20 ∧
      generateResponseCursor 100000 0 20 700 (some "abc".toList) =
        calculateCursor 100000 0 20 ∧
      generateResponseCursor 100000 0 20 700 (some "3".toList) =
        calculateCursor 100000 0 20 ∧
      generateResponseCursor 100000 0 20 700 (some "99".toList) =
        intToString (99 + (generateJitterIntervals 700 20 : Int))) :=
  ⟨⟨by decide, by decide, by decide, by decide, by decide, by decide, by decide⟩,
    (claim_c7_response_cursor 100000 0 20 700 (by decide) (by decide)).1,
    (claim_c7_response_cursor 100000 0 20 700 (by decide) (by decide)).2.1
      "abc".toList (by decide),
    (claim_c7_response_cursor 100000 0 20 700 (by decide) (by decide)).2.2.1
      "3".toList 3 (by decide) (by decide),
    ((claim_c7_response_cursor 100000 0 20 700 (by decide) (by decide)).2.2.2
      "99".toList 99 (by decide) (by decide)).1⟩

end DurableStreams

namespace DurableStreams

/-! ## Errors (errors.ts) -/

/-- The tagged error classes with their payload fields. Sequence tokens are
opaque JS strings, embedded as `String`. -/
inductive StreamError where
  | streamNotFound (path : String)
  | streamConflict (message : String)
  | sequenceConflict (expected : String) (received : String)
  | contentTypeMismatch (expected : List Char) (received : List Char)
  | invalidJson (message : String)
  | invalidOffset (offset : List Char)
  | payloadTooLarge (maxBytes receivedBytes : Nat)
  deriving DecidableEq, Repr

/-! ## Content types (protocol.ts) -/

/-- JS whitespace for `String.prototype.trim` (ASCII forms). -/
def isJsWhitespace (c : Char) : Bool :=
  c = ' ' || c = '\t' || c = '\n' || c = '\r'

/-- `trim()`. -/
def trimChars (l : List Char) : List Char :=
  ((l.dropWhile isJsWhitespace).reverse.dropWhile isJsWhitespace).reverse

/-- `normalizeContentType`: slice before the first `;`, trim, lowercase. -/
def normalizeContentType (ct : List Char) : List Char :=
  if ct.contains ';' then
    (trimChars (ct.takeWhile (fun c => c ≠ ';'))).map Char.toLower
  else
    (trimChars ct).map Char.toLower

/-- `isJsonContentType`. -/
def isJsonContentType (ct : List Char) : Bool :=
  normalizeContentType ct = "application/json".toList ||
    "+json".toList.isSuffixOf (normalizeContentType ct)

/-! ## JSON stitching (protocol.ts)

`JSON.parse` (composed with `TextDecoder().decode` and `trim()`) and
`JSON.stringify` (composed with `TextEncoder().encode`) are platform
builtins; the embedded functions take them as the parameters `parse` and
`stringify`. -/

/-- Parsed JSON values (enough structure for `Array.isArray` and flattening). -/
inductive Json where
  | null
  | bool (b : Bool)
  | num (n : Int)
  | str (s : List Char)
  | arr (items : List Json)
  | obj (fields : List (List Char × Json))

/-- `Array.isArray(parsed) ? parsed : [parsed]`. -/
def jsonItems : Json → List Json
  | .arr xs => xs
  | v => [v]

/-- `items.map(JSON.stringify).join(",") + ","` at the byte level
(44 is the comma). -/
def serializeItems (stringify : Json → List Nat) (items : List Json) : List Nat :=
  List.intercalate [44] (items.map stringify) ++ [44]

/-- `validateJsonCreate` (empty arrays allowed on PUT, stored as zero bytes). -/
def validateJsonCreate (parse : List Nat → Option Json) (stringify : Json → List Nat)
    (data : List Nat) (isPut : Bool) : Except StreamError (List Nat) :=
  match parse data with
  | none => .error (.invalidJson "Invalid JSON")
  | some (.arr []) =>
    if isPut then .ok [] else .error (.invalidJson "Empty array not allowed on POST")
  | some (.arr (x :: xs)) => .ok (serializeItems stringify (x :: xs))
  | some v => .ok (serializeItems stringify [v])

/-- `processJsonAppend` (empty arrays rejected on append). -/
def processJsonAppend (parse : List Nat → Option Json) (stringify : Json → List Nat)
    (existing newData : List Nat) : Except StreamError (List Nat) :=
  match parse newData with
  | none => .error (.invalidJson "Invalid JSON")
  | some parsed =>
    match jsonItems parsed with
    | [] => .error (.invalidJson "Empty array not allowed on append")
    | x :: xs => .ok (existing ++ serializeItems stringify (x :: xs))

/-! ## Expiry (protocol.ts)

`new Date(expiresAt).getTime()` is a platform builtin, passed as the
parameter `pd` (`none` stands for `NaN`). -/

/-- `isExpired`: a non-empty `expiresAt` that is unparseable or at/before
`now`, or an elapsed TTL, marks the stream expired. -/
def isExpired (pd : String → Option Int) (now : Int) (ttlSeconds : Option Int)
    (expiresAt : Option String) (createdAt : Option Int) : Bool :=
  (match expiresAt with
   | some s =>
     if s = "" then false
     else
       match pd s with
       | none => true
       | some ms => decide (ms ≤ now)
   | none => false) ||
  (match ttlSeconds, createdAt with
   | some ttl, some ca => decide (ca + ttl * 1000 ≤ now)
   | _, _ => false)

/-! ## Shared substrate helpers (storage/utils.ts) -/

structure StreamMetadata where
  path : String
  contentType : List Char
  ttlSeconds : Option Int
  expiresAt : Option String
  createdAt : Int
  deriving DecidableEq, Repr

/-- `isMetadataExpired`. -/
def isMetadataExpired (pd : String → Option Int) (now : Int) (m : StreamMetadata) : Bool :=
  isExpired pd now m.ttlSeconds m.expiresAt (some m.createdAt)

structure PutOptions where
  contentType : List Char
  ttlSeconds : Option Int := none
  expiresAt : Option String := none
  data : Option (List Nat) := none
  deriving DecidableEq, Repr

structure PutResult where
  created : Bool
  nextOffset : List Char
  deriving DecidableEq, Repr

structure AppendOptions where
  contentType : Option (List Char) := none
  seq : Option String := none
  deriving DecidableEq, Repr

structure AppendResult where
  nextOffset : List Char
  deriving DecidableEq, Repr

/-- `validateIdempotentCreate`. -/
def validateIdempotentCreate (existingContentType : List Char)
    (existingTtlSeconds : Option Int) (existingExpiresAt : Option String)
    (options : PutOptions) : Except StreamError Unit :=
  if normalizeContentType existingContentType ≠ normalizeContentType options.contentType then
    .error (.contentTypeMismatch (normalizeContentType existingContentType)
      (normalizeContentType options.contentType))
  else if options.ttlSeconds ≠ existingTtlSeconds then
    .error (.streamConflict "TTL mismatch on idempotent create")
  else if options.expiresAt ≠ existingExpiresAt then
    .error (.streamConflict "Expires-At mismatch on idempotent create")
  else .ok ()

structure PreparedData where
  data : List Nat
  appendCount : Nat
  nextOffset : List Char
  deriving DecidableEq, Repr

/-- `prepareInitialData`: JSON bodies are validated/reserialized when
non-empty; `append_count` is 1 iff the final buffer is non-empty. -/
def prepareInitialData (parse : List Nat → Option Json) (stringify : Json → List Nat)
    (options : PutOptions) : Except StreamError PreparedData :=
  match (if isJsonContentType options.contentType ∧ 0 < (options.data.getD []).length then
      validateJsonCreate parse stringify (options.data.getD []) true
    else .ok (options.data.getD [])) with
  | .error e => .error e
  | .ok data =>
    .ok ⟨data, if 0 < data.length then 1 else 0,
      formatOffset (if 0 < data.length then 1 else 0) data.length⟩

/-- `validateAppendContentType` (an empty request content type is falsy and
skips the check, as in the source). -/
def validateAppendContentType (streamContentType : List Char)
    (requestContentType : Option (List Char)) : Except StreamError Unit :=
  match requestContentType with
  | none => .ok ()
  | some req =>
    if req = [] then .ok ()
    else if normalizeContentType streamContentType ≠ normalizeContentType req then
      .error (.contentTypeMismatch (normalizeContentType streamContentType)
        (normalizeContentType req))
    else .ok ()

/-- JS `<` on strings: lexicographic by code units. -/
def strLtChars : List Char → List Char → Bool
  | [], [] => false
  | [], _ :: _ => true
  | _ :: _, [] => false
  | a :: as, b :: bs => if a < b then true else if b < a then false else strLtChars as bs

/-- JS `<=` on strings (total order: `a <= b` iff not `b < a`). -/
def jsStrLe (a b : String) : Bool := !strLtChars b.toList a.toList

/-- `validateAppendSeq`: both present and `requestSeq <= lastSeq` (JS string
comparison) conflicts, with expected `"> " + lastSeq`. -/
def validateAppendSeq (lastSeq requestSeq : Option String) : Except StreamError Unit :=
  match requestSeq, lastSeq with
  | some r, some l =>
    if jsStrLe r l then .error (.sequenceConflict ("> " ++ l) r) else .ok ()
  | _, _ => .ok ()

/-- `mergeData`. -/
def mergeData (parse : List Nat → Option Json) (stringify : Json → List Nat)
    (existingData newData : List Nat) (isJson : Bool) : Except StreamError (List Nat) :=
  if isJson then processJsonAppend parse stringify existingData newData
  else .ok (existingData ++ newData)

end DurableStreams

namespace DurableStreams

/-! ## In-memory substrate (storage/interface.ts, `MemoryStore`)

The class becomes pure functions threading the `path → StoredStream` map.
`Date.now()` is the parameter `now`; the date parser behind `isExpired` is
`pd`; JSON enters through `parse`/`stringify` as above. `waitForData` is
embedded up to its only synchronous suspension point: the immediate-data
check and the waiter enrollment (the subsequent race against the timer is
real time and outside the embedding). Waiter resolution is returned as a
list of (waiter, result) pairs in resolution order. -/

structure StreamMessage where
  offset : List Char
  timestamp : Int
  data : List Nat
  deriving DecidableEq, Repr

structure WaitResult where
  messages : List StreamMessage
  timedOut : Bool
  deriving DecidableEq, Repr

structure Waiter where
  offset : List Char
  deriving DecidableEq, Repr

structure StoredStream where
  metadata : StreamMetadata
  data : List Nat
  nextOffset : List Char
  lastSeq : Option String
  appendCount : Nat
  waiters : List Waiter
  deriving DecidableEq, Repr

/-- The `streams` map, as an association list with unique keys. -/
abbrev MemState := List (String × StoredStream)

/-- `Map.delete`. -/
def eraseStream (path : String) (st : MemState) : MemState :=
  st.filter (fun e => e.1 ≠ path)

/-- `Map.set`. -/
def setStream (path : String) (s : StoredStream) (st : MemState) : MemState :=
  (path, s) :: eraseStream path st

structure GetOptions where
  offset : Option (List Char) := none
  deriving DecidableEq, Repr

structure GetResult where
  messages : List StreamMessage
  nextOffset : List Char
  upToDate : Bool
  cursor : List Char
  etag : List Char
  contentType : List Char
  deriving DecidableEq, Repr

structure HeadResult where
  contentType : List Char
  nextOffset : List Char
  etag : List Char
  deriving DecidableEq, Repr

/-- `MemoryStore.getStream`: the lazy-expiry lookup; an expired entry is
deleted and reported absent. Returns the possibly-updated map. -/
def memGetStream (pd : String → Option Int) (now : Int) (st : MemState)
    (path : String) : Option StoredStream × MemState :=
  match st.lookup path with
  | none => (none, st)
  | some s =>
    if isMetadataExpired pd now s.metadata then (none, eraseStream path st)
    else (some s, st)

/-- `MemoryStore.notifyWaiters`: snapshot and clear the list, resolve every
waiter strictly behind the new length with one synthesized message, re-push
the rest. Returns (resolutions, new live list), both in iteration order. -/
def notifyWaiters (now : Int) (waiters : List Waiter) (data : List Nat) :
    List (Waiter × WaitResult) × List Waiter :=
  match waiters with
  | [] => ([], [])
  | w :: rest =>
    let tail := notifyWaiters now rest data
    if offsetToBytePos w.offset < data.length then
      ((w, ⟨[⟨w.offset, now, data.drop (offsetToBytePos w.offset)⟩], false⟩) :: tail.1,
        tail.2)
    else
      (tail.1, w :: tail.2)

/-- `MemoryStore.put`. -/
def memPut (pd : String → Option Int) (parse : List Nat → Option Json)
    (stringify : Json → List Nat) (now : Int) (st : MemState) (path : String)
    (options : PutOptions) : Except StreamError PutResult × MemState :=
  match memGetStream pd now st path with
  | (some existing, st1) =>
    match validateIdempotentCreate existing.metadata.contentType
        existing.metadata.ttlSeconds existing.metadata.expiresAt options with
    | .error e => (.error e, st1)
    | .ok _ => (.ok ⟨false, existing.nextOffset⟩, st1)
  | (none, st1) =>
    match prepareInitialData parse stringify options with
    | .error e => (.error e, st1)
    | .ok prep =>
      (.ok ⟨true, prep.nextOffset⟩,
        setStream path
          ⟨⟨path, options.contentType, options.ttlSeconds, options.expiresAt, now⟩,
            prep.data, prep.nextOffset, none, prep.appendCount, []⟩ st1)

/-- `MemoryStore.append`: lookup (with lazy expiry), validations, merge,
in-place mutation, then `notifyWaiters`. The third component is the list of
waiter resolutions. -/
def memAppend (pd : String → Option Int) (parse : List Nat → Option Json)
    (stringify : Json → List Nat) (now : Int) (st : MemState) (path : String)
    (data : List Nat) (options : AppendOptions) :
    Except StreamError AppendResult × MemState × List (Waiter × WaitResult) :=
  match memGetStream pd now st path with
  | (none, st1) => (.error (.streamNotFound path), st1, [])
  | (some s, st1) =>
    match validateAppendContentType s.metadata.contentType options.contentType with
    | .error e => (.error e, st1, [])
    | .ok _ =>
      match validateAppendSeq s.lastSeq options.seq with
      | .error e => (.error e, st1, [])
      | .ok _ =>
        match mergeData parse stringify s.data data
            (isJsonContentType s.metadata.contentType) with
        | .error e => (.error e, st1, [])
        | .ok newData =>
          (.ok ⟨formatOffset (s.appendCount + 1) newData.length⟩,
            setStream path
              { s with
                data := newData,
                nextOffset := formatOffset (s.appendCount + 1) newData.length,
                lastSeq := match options.seq with | some q => some q | none => s.lastSeq,
                appendCount := s.appendCount + 1,
                waiters := (notifyWaiters now s.waiters newData).2 } st1,
            (notifyWaiters now s.waiters newData).1)

/-- `MemoryStore.get`. `epochMs` is the parsed default cursor epoch. -/
def memGet (pd : String → Option Int) (now epochMs : Int) (st : MemState)
    (path : String) (options : GetOptions) : Except StreamError GetResult × MemState :=
  match memGetStream pd now st path with
  | (none, st1) => (.error (.streamNotFound path), st1)
  | (some s, st1) =>
    (.ok ⟨if offsetToBytePos (options.offset.getD initialOffset) < s.data.length then
        [⟨options.offset.getD initialOffset, now,
          s.data.drop (offsetToBytePos (options.offset.getD initialOffset))⟩]
      else [],
      s.nextOffset, true,
      calculateCursor now epochMs DEFAULT_CURSOR_INTERVAL_SECONDS,
      generateETag (path.toList.map Char.toNat) (options.offset.getD initialOffset)
        s.nextOffset,
      s.metadata.contentType⟩, st1)

/-- `MemoryStore.head`. -/
def memHead (pd : String → Option Int) (now : Int) (st : MemState) (path : String) :
    Option HeadResult × MemState :=
  match memGetStream pd now st path with
  | (none, st1) => (none, st1)
  | (some s, st1) =>
    (some ⟨s.metadata.contentType, s.nextOffset,
      generateETag (path.toList.map Char.toNat) initialOffset s.nextOffset⟩, st1)

/-- `MemoryStore.has`. -/
def memHas (pd : String → Option Int) (now : Int) (st : MemState) (path : String) :
    Bool × MemState :=
  match memGetStream pd now st path with
  | (none, st1) => (false, st1)
  | (some _, st1) => (true, st1)

/-- Synchronous outcome of `MemoryStore.waitForData`. -/
inductive WaitOutcome where
  | immediate (r : WaitResult)
  | enrolled
  deriving DecidableEq, Repr

/-- `MemoryStore.waitForData` up to its suspension point: immediate data or
waiter enrollment. -/
def memWaitForData (pd : String → Option Int) (now : Int) (st : MemState)
    (path : String) (offset : List Char) : Except StreamError WaitOutcome × MemState :=
  match memGetStream pd now st path with
  | (none, st1) => (.error (.streamNotFound path), st1)
  | (some s, st1) =>
    if offsetToBytePos offset < s.data.length then
      (.ok (.immediate ⟨[⟨offset, now, s.data.drop (offsetToBytePos offset)⟩], false⟩), st1)
    else
      (.ok .enrolled, setStream path { s with waiters := s.waiters ++ [⟨offset⟩] } st1)

end DurableStreams

namespace DurableStreams

/-! ## KV substrate (storage/kv.ts)

Two KV objects per path: `stream:{path}:meta` (a JSON `StreamRecord`) and
`stream:{path}:data` (raw bytes). `put` and `append` issue their two
`kv.put` calls through `Promise.all`, i.e. concurrently; the embedding
returns the writes in invocation order (the metadata put is the first
element of the `Promise.all` array and is invoked first). kv.ts contains no
expiry check on any operation. -/

/-- kv.ts `StreamRecord` (the metadata document). -/
structure StreamRecord where
  contentType : List Char
  ttlSeconds : Option Int := none
  expiresAt : Option String := none
  createdAt : Int
  nextOffset : List Char
  lastSeq : Option String := none
  appendCount : Nat
  deriving DecidableEq, Repr

/-- The two KV objects of one path. -/
structure KvPair where
  meta : Option StreamRecord
  data : Option (List Nat)
  deriving DecidableEq, Repr

/-- A `kv.put` on one of the two keys. -/
inductive KvWrite where
  | putMeta (r : StreamRecord)
  | putData (d : List Nat)
  deriving DecidableEq, Repr

def applyKvWrite (s : KvPair) : KvWrite → KvPair
  | .putMeta r => { s with meta := some r }
  | .putData d => { s with data := some d }

def applyKvWrites (s : KvPair) (ws : List KvWrite) : KvPair :=
  ws.foldl applyKvWrite s

/-- `KVStore.append` up to its `Promise.all`: reads, validations, merge, and
the two writes it issues, in invocation order. -/
def kvAppend (parse : List Nat → Option Json) (stringify : Json → List Nat)
    (path : String) (s : KvPair) (data : List Nat) (options : AppendOptions) :
    Except StreamError (List KvWrite × AppendResult) :=
  match s.meta with
  | none => .error (.streamNotFound path)
  | some meta =>
    match (match options.contentType with
      | some req =>
        if req = [] then Except.ok ()
        else if normalizeContentType meta.contentType ≠ normalizeContentType req then
          Except.error (StreamError.contentTypeMismatch
            (normalizeContentType meta.contentType) (normalizeContentType req))
        else Except.ok ()
      | none => Except.ok ()) with
    | .error e => .error e
    | .ok _ =>
      match (match options.seq, meta.lastSeq with
        | some q, some l =>
          if jsStrLe q l then Except.error (StreamError.sequenceConflict ("> " ++ l) q)
          else Except.ok ()
        | _, _ => Except.ok ()) with
      | .error e => .error e
      | .ok _ =>
        match (if isJsonContentType meta.contentType then
            processJsonAppend parse stringify (s.data.getD []) data
          else .ok (s.data.getD [] ++ data)) with
        | .error e => .error e
        | .ok newData =>
          .ok ([KvWrite.putMeta
              { meta with
                nextOffset := formatOffset (meta.appendCount + 1) newData.length,
                lastSeq := match options.seq with | some q => some q | none => meta.lastSeq,
                appendCount := meta.appendCount + 1 },
            KvWrite.putData newData],
            ⟨formatOffset (meta.appendCount + 1) newData.length⟩)

/-- `KVStore.put` up to its `Promise.all` (the created case issues the two
writes, metadata first; the idempotent case issues none). -/
def kvPut (parse : List Nat → Option Json) (stringify : Json → List Nat)
    (now : Int) (s : KvPair) (options : PutOptions) :
    Except StreamError (List KvWrite × PutResult) :=
  match s.meta with
  | some existingMeta =>
    match validateIdempotentCreate existingMeta.contentType existingMeta.ttlSeconds
        existingMeta.expiresAt options with
    | .error e => .error e
    | .ok _ => .ok ([], ⟨false, existingMeta.nextOffset⟩)
  | none =>
    match prepareInitialData parse stringify options with
    | .error e => .error e
    | .ok prep =>
      .ok ([KvWrite.putMeta
          ⟨options.contentType, options.ttlSeconds, options.expiresAt, now,
            prep.nextOffset, none, prep.appendCount⟩,
        KvWrite.putData prep.data],
        ⟨true, prep.nextOffset⟩)

/-! ## Helper lemmas about the in-memory substrate -/

theorem memGetStream_some_elim {pd : String → Option Int} {now : Int} {st : MemState}
    {path : String} {s : StoredStream} {st1 : MemState}
    (h : memGetStream pd now st path = (some s, st1)) :
    st1 = st ∧ st.lookup path = some s ∧ isMetadataExpired pd now s.metadata = false := by
  unfold memGetStream at h
  split at h
  · exact absurd (congrArg Prod.fst h) (by simp)
  next s0 hx =>
    split at h
    · exact absurd (congrArg Prod.fst h) (by simp)
    next he =>
      injection h with h1 h2
      injection h1 with h1
      subst h1
      exact ⟨h2.symm, hx, by simpa using he⟩

theorem memGetStream_expired {pd : String → Option Int} {now : Int} {st : MemState}
    {path : String} {s : StoredStream} (hfind : st.lookup path = some s)
    (hexp : isMetadataExpired pd now s.metadata = true) :
    memGetStream pd now st path = (none, eraseStream path st) := by
  unfold memGetStream
  rw [hfind]
  show (if isMetadataExpired pd now s.metadata = true then (none, eraseStream path st)
    else (some s, st)) = (none, eraseStream path st)
  rw [if_pos hexp]

theorem memGetStream_live {pd : String → Option Int} {now : Int} {st : MemState}
    {path : String} {s : StoredStream} (hfind : st.lookup path = some s)
    (hexp : isMetadataExpired pd now s.metadata = false) :
    memGetStream pd now st path = (some s, st) := by
  unfold memGetStream
  rw [hfind]
  show (if isMetadataExpired pd now s.metadata = true then (none, eraseStream path st)
    else (some s, st)) = (some s, st)
  rw [if_neg (by simp [hexp])]

theorem memGetStream_absent {pd : String → Option Int} {now : Int} {st : MemState}
    {path : String} (hfind : st.lookup path = none) :
    memGetStream pd now st path = (none, st) := by
  unfold memGetStream
  rw [hfind]

/-- The expiry predicate exactly as the claim states it: `expiresAt` parses
to a time at or before `now`, or `createdAt + ttlSeconds*1000 ≤ now`. -/
def claimExpiryHolds (pd : String → Option Int) (now : Int) (m : StreamMetadata) : Prop :=
  (∃ s t, m.expiresAt = some s ∧ s ≠ "" ∧ pd s = some t ∧ t ≤ now) ∨
  (∃ ttl, m.ttlSeconds = some ttl ∧ m.createdAt + ttl * 1000 ≤ now)

theorem isMetadataExpired_of_claim {pd : String → Option Int} {now : Int}
    {m : StreamMetadata} (h : claimExpiryHolds pd now m) :
    isMetadataExpired pd now m = true := by
  rcases h with ⟨s, t, he, hne, hp, hlt⟩ | ⟨ttl, ht, hlt⟩
  · simp [isMetadataExpired, isExpired, he, hne, hp, hlt]
  · simp [isMetadataExpired, isExpired, ht, hlt]

/-- `notifyWaiters` is the filter/map characterization: waiters strictly
behind the new length are each resolved with exactly one synthesized
message; the rest are re-enrolled, order preserved. -/
theorem notifyWaiters_eq (now : Int) (data : List Nat) (ws : List Waiter) :
    notifyWaiters now ws data =
      ((ws.filter fun w => decide (offsetToBytePos w.offset < data.length)).map
        (fun w => (w, ⟨[⟨w.offset, now, data.drop (offsetToBytePos w.offset)⟩], false⟩)),
        ws.filter fun w => !decide (offsetToBytePos w.offset < data.length)) := by
  induction ws with
  | nil => rfl
  | cons w rest ih =>
    unfold notifyWaiters
    rw [ih]
    by_cases hw : offsetToBytePos w.offset < data.length
    · rw [if_pos hw]
      simp [List.filter_cons, hw]
    · rw [if_neg hw]
      simp [List.filter_cons, hw]

end DurableStreams

namespace DurableStreams

theorem memGetStream_none_elim {pd : String → Option Int} {now : Int} {st : MemState}
    {path : String} {st1 : MemState}
    (h : memGetStream pd now st path = (none, st1)) :
    (st.lookup path = none ∧ st1 = st) ∨
    (∃ s, st.lookup path = some s ∧ isMetadataExpired pd now s.metadata = true ∧
      st1 = eraseStream path st) := by
  unfold memGetStream at h
  split at h
  next hx =>
    injection h with h1 h2
    exact Or.inl ⟨hx, h2.symm⟩
  next s0 hx =>
    split at h
    next he =>
      injection h with h1 h2
      exact Or.inr ⟨s0, hx, he, h2.symm⟩
    next he =>
      exact absurd (congrArg Prod.fst h) (by simp)

theorem lookup_setStream (path : String) (s : StoredStream) (st : MemState) :
    (setStream path s st).lookup path = some s := by
  unfold setStream
  simp [List.lookup]

theorem validateAppendContentType_error_shape {sct : List Char}
    {req : Option (List Char)} {e : StreamError}
    (h : validateAppendContentType sct req = .error e) :
    ∃ a b, e = .contentTypeMismatch a b := by
  unfold validateAppendContentType at h
  split at h
  · exact absurd h (by simp)
  split at h
  · exact absurd h (by simp)
  split at h
  · injection h with h1
    exact ⟨_, _, h1.symm⟩
  · exact absurd h (by simp)

theorem mergeData_error_shape {parse : List Nat → Option Json}
    {stringify : Json → List Nat} {a b : List Nat} {isJson : Bool} {e : StreamError}
    (h : mergeData parse stringify a b isJson = .error e) :
    ∃ m, e = .invalidJson m := by
  unfold mergeData at h
  split at h
  · unfold processJsonAppend at h
    split at h
    · injection h with h1
      exact ⟨_, h1.symm⟩
    split at h
    · injection h with h1
      exact ⟨_, h1.symm⟩
    · exact absurd h (by simp)
  · exact absurd h (by simp)

theorem validateAppendSeq_error_shape {lastSeq requestSeq : Option String}
    {e : StreamError} (h : validateAppendSeq lastSeq requestSeq = .error e) :
    ∃ l r, lastSeq = some l ∧ requestSeq = some r ∧ jsStrLe r l = true ∧
      e = .sequenceConflict ("> " ++ l) r := by
  unfold validateAppendSeq at h
  split at h
  next r l =>
    split at h
    next hrl =>
      injection h with h1
      exact ⟨l, r, rfl, rfl, hrl, h1.symm⟩
    · exact absurd h (by simp)
  next hne =>
    exact absurd h (by simp)

/-- C1 (amended to the in-memory reference substrate): on MemoryStore, a
stream whose expiry predicate holds is treated as absent by every
operation — get, append and waitForData fail with StreamNotFoundError, head
reports absent, has returns false — and the lookup that observes it
synchronously removes the entry. (The KV substrate performs no expiry
check at all; see the counterexample.) -/
theorem claim_c1_expiry_memory (pd : String → Option Int)
    (parse : List Nat → Option Json) (stringify : Json → List Nat)
    (now epochMs : Int) (st : MemState) (path : String) (s : StoredStream)
    (hfind : st.lookup path = some s)
    (hexp : claimExpiryHolds pd now s.metadata) :
    (∀ options, memGet pd now epochMs st path options =
      (.error (.streamNotFound path), eraseStream path st)) ∧
    (∀ data options, memAppend pd parse stringify now st path data options =
      (.error (.streamNotFound path), eraseStream path st, [])) ∧
    (∀ offset, memWaitForData pd now st path offset =
      (.error (.streamNotFound path), eraseStream path st)) ∧
    memHead pd now st path = (none, eraseStream path st) ∧
    memHas pd now st path = (false, eraseStream path st) := by
  have hged := memGetStream_expired hfind (isMetadataExpired_of_claim hexp)
  refine ⟨fun options => ?_, fun data options => ?_, fun offset => ?_, ?_, ?_⟩
  · unfold memGet
    rw [hged]
  · unfold memAppend
    rw [hged]
  · unfold memWaitForData
    rw [hged]
  · unfold memHead
    rw [hged]
  · unfold memHas
    rw [hged]

/-- Fixture: a stream created at time 0 with a 1-second TTL, observed at
time 2000 ms (expired). -/
def expiredStream : StoredStream :=
  ⟨⟨"p", "application/octet-stream".toList, some 1, none, 0⟩, [120],
    formatOffset 1 1, none, 1, []⟩

def expiredState : MemState := [("p", expiredStream)]

/-- Witness for C1 on the concrete expired fixture. -/
theorem claim_c1_expiry_memory_witness :
    (expiredState.lookup "p" = some expiredStream ∧
      claimExpiryHolds (fun _ => none) 2000 expiredStream.metadata) ∧
    (memGet (fun _ => none) 2000 0 expiredState "p" ⟨none⟩ =
      (.error (.streamNotFound "p"), eraseStream "p" expiredState) ∧
    memAppend (fun _ => none) (fun _ => none) (fun _ => []) 2000 expiredState "p"
      [121] ⟨none, none⟩ =
      (.error (.streamNotFound "p"), eraseStream "p" expiredState, []) ∧
    memWaitForData (fun _ => none) 2000 expiredState "p" (formatOffset 1 1) =
      (.error (.streamNotFound "p"), eraseStream "p" expiredState) ∧
    memHead (fun _ => none) 2000 expiredState "p" =
      (none, eraseStream "p" expiredState) ∧
    memHas (fun _ => none) 2000 expiredState "p" =
      (false, eraseStream "p" expiredState)) :=
  have hc : claimExpiryHolds (fun _ => none) 2000 expiredStream.metadata :=
    Or.inr ⟨1, rfl, by decide⟩
  have hmain := claim_c1_expiry_memory (fun _ => none) (fun _ => none) (fun _ => [])
    2000 0 expiredState "p" expiredStream (by decide) hc
  ⟨⟨by decide, hc⟩, hmain.1 ⟨none⟩, hmain.2.1 [121] ⟨none, none⟩,
    hmain.2.2.1 (formatOffset 1 1), hmain.2.2.2.1, hmain.2.2.2.2⟩

/-- C1 counterexample: the claim quantifies over every substrate operation,
but kv.ts never consults the expiry predicate — `KVStore.append` on a
stream whose TTL has elapsed (created at 0 with TTL 1 second, observed at
2000 ms) succeeds with the two writes instead of failing with
StreamNotFoundError, and the expired entry is not removed. -/
theorem claim_c1_counterexample :
    claimExpiryHolds (fun _ => none) 2000
      ⟨"p", "application/octet-stream".toList, some 1, none, 0⟩ ∧
    kvAppend (fun _ => none) (fun _ => []) "p"
      ⟨some ⟨"application/octet-stream".toList, some 1, none, 0, formatOffset 1 1,
        none, 1⟩, some [120]⟩ [121] ⟨none, none⟩ =
      .ok ([KvWrite.putMeta ⟨"application/octet-stream".toList, some 1, none, 0,
          formatOffset 2 2, none, 2⟩, KvWrite.putData [120, 121]],
        ⟨formatOffset 2 2⟩) :=
  ⟨Or.inr ⟨1, rfl, by decide⟩, rfl⟩

end DurableStreams

namespace DurableStreams

/-- C2: after every successful append on a path, each waiter enrolled there
whose offset byte position is strictly below the new buffer length is
resolved with exactly one synthesized message carrying buffer[offset.P:]
and timedOut = false, and each waiter at or beyond the new length is
re-enrolled unresolved (the new live list is exactly those waiters, in
order). -/
theorem claim_c2_notify_on_append (pd : String → Option Int)
    (parse : List Nat → Option Json) (stringify : Json → List Nat) (now : Int)
    (st : MemState) (path : String) (data : List Nat) (options : AppendOptions)
    (r : AppendResult) (st2 : MemState) (res : List (Waiter × WaitResult))
    (h : memAppend pd parse stringify now st path data options = (.ok r, st2, res)) :
    ∃ s newData, st.lookup path = some s ∧
      r.nextOffset = formatOffset (s.appendCount + 1) newData.length ∧
      res = (s.waiters.filter fun w =>
          decide (offsetToBytePos w.offset < newData.length)).map
        (fun w => (w, ⟨[⟨w.offset, now, newData.drop (offsetToBytePos w.offset)⟩],
          false⟩)) ∧
      (∃ s2, st2.lookup path = some s2 ∧ s2.data = newData ∧
        s2.waiters = s.waiters.filter fun w =>
          !decide (offsetToBytePos w.offset < newData.length)) := by
  unfold memAppend at h
  split at h
  next heq => exact absurd (congrArg (fun t => t.1) h) (by simp)
  next s st1 heq =>
    obtain ⟨hst1, hfind, _⟩ := memGetStream_some_elim heq
    subst hst1
    split at h
    · exact absurd (congrArg (fun t => t.1) h) (by simp)
    split at h
    · exact absurd (congrArg (fun t => t.1) h) (by simp)
    split at h
    · exact absurd (congrArg (fun t => t.1) h) (by simp)
    next newData hmerge =>
      refine ⟨s, newData, hfind, ?_, ?_, ?_⟩
      · have h1 := congrArg (fun t => t.1) h
        simp only at h1
        injection h1 with h1
        rw [← h1]
      · have h3 := congrArg (fun t => t.2.2) h
        simp only at h3
        rw [← h3, notifyWaiters_eq]
      · have h2 := congrArg (fun t => t.2.1) h
        simp only at h2
        refine ⟨_, by rw [← h2, lookup_setStream], rfl, ?_⟩
        simp only [notifyWaiters_eq]

/-- Witness for C2: an append resolving one waiter and re-enrolling another. -/
theorem claim_c2_notify_on_append_witness :
    memAppend (fun _ => none) (fun _ => none) (fun _ => []) 5
      [("p", ⟨⟨"p", "application/octet-stream".toList, none, none, 0⟩, [120],
        formatOffset 1 1, none, 1,
        [⟨formatOffset 1 1⟩, ⟨formatOffset 2 2⟩]⟩)] "p" [121] ⟨none, none⟩ =
      (.ok ⟨formatOffset 2 2⟩,
        [("p", ⟨⟨"p", "application/octet-stream".toList, none, none, 0⟩, [120, 121],
          formatOffset 2 2, none, 2, [⟨formatOffset 2 2⟩]⟩)],
        [(⟨formatOffset 1 1⟩, ⟨[⟨formatOffset 1 1, 5, [121]⟩], false⟩)]) ∧
    ∃ s newData,
      (([("p", ⟨⟨"p", "application/octet-stream".toList, none, none, 0⟩, [120],
        formatOffset 1 1, none, 1,
        [⟨formatOffset 1 1⟩, ⟨formatOffset 2 2⟩]⟩)] : MemState).lookup "p" = some s) ∧
      (⟨formatOffset 2 2⟩ : AppendResult).nextOffset =
        formatOffset (s.appendCount + 1) newData.length ∧
      [(⟨formatOffset 1 1⟩, (⟨[⟨formatOffset 1 1, 5, [121]⟩], false⟩ : WaitResult))] =
        (s.waiters.filter fun w =>
          decide (offsetToBytePos w.offset < newData.length)).map
        (fun w => (w, ⟨[⟨w.offset, 5, newData.drop (offsetToBytePos w.offset)⟩],
          false⟩)) ∧
      (∃ s2, (([("p", ⟨⟨"p", "application/octet-stream".toList, none, none, 0⟩,
          [120, 121], formatOffset 2 2, none, 2,
          [⟨formatOffset 2 2⟩]⟩)] : MemState).lookup "p" = some s2) ∧
        s2.data = newData ∧
        s2.waiters = s.waiters.filter fun w =>
          !decide (offsetToBytePos w.offset < newData.length)) :=
  ⟨rfl, claim_c2_notify_on_append (fun _ => none) (fun _ => none) (fun _ => []) 5
    [("p", ⟨⟨"p", "application/octet-stream".toList, none, none, 0⟩, [120],
      formatOffset 1 1, none, 1, [⟨formatOffset 1 1⟩, ⟨formatOffset 2 2⟩]⟩)] "p"
    [121] ⟨none, none⟩ ⟨formatOffset 2 2⟩
    [("p", ⟨⟨"p", "application/octet-stream".toList, none, none, 0⟩, [120, 121],
      formatOffset 2 2, none, 2, [⟨formatOffset 2 2⟩]⟩)]
    [(⟨formatOffset 1 1⟩, ⟨[⟨formatOffset 1 1, 5, [121]⟩], false⟩)] rfl⟩

end DurableStreams

namespace DurableStreams

/-- C9 (amended): whenever `MemoryStore.append` rejects, no waiter is
resolved; the stored stream state for the path is unchanged unless the
lookup observed an expired entry, in which case that entry (only) is
removed — with its buffer and waiter list — and the rejection is
StreamNotFoundError. -/
theorem claim_c9_append_rejection (pd : String → Option Int)
    (parse : List Nat → Option Json) (stringify : Json → List Nat) (now : Int)
    (st : MemState) (path : String) (data : List Nat) (options : AppendOptions)
    (e : StreamError) (st2 : MemState) (res : List (Waiter × WaitResult))
    (h : memAppend pd parse stringify now st path data options = (.error e, st2, res)) :
    res = [] ∧
    (st.lookup path = none → st2 = st) ∧
    (∀ s, st.lookup path = some s → isMetadataExpired pd now s.metadata = false →
      st2 = st) ∧
    (∀ s, st.lookup path = some s → isMetadataExpired pd now s.metadata = true →
      e = .streamNotFound path ∧ st2 = eraseStream path st) := by
  unfold memAppend at h
  split at h
  next heq =>
    have h1 := congrArg (fun t => t.1) h
    have h2 := congrArg (fun t => t.2.1) h
    have h3 := congrArg (fun t => t.2.2) h
    simp only at h1 h2 h3
    injection h1 with h1
    rcases memGetStream_none_elim heq with ⟨hfind, hst⟩ | ⟨s, hfind, hexp, hst⟩
    · refine ⟨h3.symm, fun _ => by rw [← h2, hst], ?_, ?_⟩
      · intro s hs _
        rw [hfind] at hs
        exact Option.noConfusion hs
      · intro s hs _
        rw [hfind] at hs
        exact Option.noConfusion hs
    · refine ⟨h3.symm, ?_, ?_, ?_⟩
      · intro hnone
        rw [hfind] at hnone
        exact Option.noConfusion hnone
      · intro s0 hs0 hlive
        rw [hfind] at hs0
        injection hs0 with hs0
        subst hs0
        rw [hexp] at hlive
        exact Bool.noConfusion hlive
      · intro s0 hs0 _
        rw [hfind] at hs0
        injection hs0 with hs0
        subst hs0
        exact ⟨by rw [← h1], by rw [← h2, hst]⟩
  next s st1 heq =>
    obtain ⟨hst1, hfind, hlive⟩ := memGetStream_some_elim heq
    rw [hst1] at h
    have hcommon : st2 = st ∧ res = [] → res = [] ∧
        (st.lookup path = none → st2 = st) ∧
        (∀ s0, st.lookup path = some s0 →
          isMetadataExpired pd now s0.metadata = false → st2 = st) ∧
        (∀ s0, st.lookup path = some s0 →
          isMetadataExpired pd now s0.metadata = true →
          e = .streamNotFound path ∧ st2 = eraseStream path st) := by
      rintro ⟨hA, hB⟩
      refine ⟨hB, fun _ => hA, fun _ _ _ => hA, ?_⟩
      intro s0 hs0 hexp
      rw [hfind] at hs0
      injection hs0 with hs0
      subst hs0
      rw [hlive] at hexp
      exact Bool.noConfusion hexp
    split at h
    · apply hcommon
      have h2 := congrArg (fun t => t.2.1) h
      have h3 := congrArg (fun t => t.2.2) h
      simp only at h2 h3
      exact ⟨h2.symm, h3.symm⟩
    split at h
    · apply hcommon
      have h2 := congrArg (fun t => t.2.1) h
      have h3 := congrArg (fun t => t.2.2) h
      simp only at h2 h3
      exact ⟨h2.symm, h3.symm⟩
    split at h
    · apply hcommon
      have h2 := congrArg (fun t => t.2.1) h
      have h3 := congrArg (fun t => t.2.2) h
      simp only at h2 h3
      exact ⟨h2.symm, h3.symm⟩
    · exact absurd (congrArg (fun t => t.1) h) (by simp)

/-- C9 counterexample: an append to an expired stream rejects with
StreamNotFoundError, but the stored state for the path is not unchanged —
the entry (its buffer, offsets and waiter list) is deleted by the lookup. -/
theorem claim_c9_counterexample :
    memAppend (fun _ => none) (fun _ => none) (fun _ => []) 2000 expiredState "p"
      [121] ⟨none, none⟩ = (.error (.streamNotFound "p"), [], []) ∧
    ([] : MemState) ≠ expiredState :=
  ⟨rfl, by decide⟩

/-- Witness for C9 at a concrete rejected append (sequence conflict on a
live stream: state unchanged, no waiter resolved). -/
theorem claim_c9_append_rejection_witness :
    memAppend (fun _ => none) (fun _ => none) (fun _ => []) 5
      [("p", ⟨⟨"p", "application/octet-stream".toList, none, none, 0⟩, [120],
        formatOffset 1 1, some "5", 1, [⟨formatOffset 1 1⟩]⟩)] "p" [121]
      ⟨none, some "4"⟩ =
      (.error (.sequenceConflict "> 5" "4"),
        [("p", ⟨⟨"p", "application/octet-stream".toList, none, none, 0⟩, [120],
          formatOffset 1 1, some "5", 1, [⟨formatOffset 1 1⟩]⟩)], []) ∧
    ([] : List (Waiter × WaitResult)) = [] ∧
    (([("p", ⟨⟨"p", "application/octet-stream".toList, none, none, 0⟩, [120],
        formatOffset 1 1, some "5", 1, [⟨formatOffset 1 1⟩]⟩)] : MemState).lookup "p" =
      none →
      [("p", (⟨⟨"p", "application/octet-stream".toList, none, none, 0⟩, [120],
        formatOffset 1 1, some "5", 1, [⟨formatOffset 1 1⟩]⟩ : StoredStream))] =
      [("p", ⟨⟨"p", "application/octet-stream".toList, none, none, 0⟩, [120],
        formatOffset 1 1, some "5", 1, [⟨formatOffset 1 1⟩]⟩)]) :=
  have happ : memAppend (fun _ => none) (fun _ => none) (fun _ => []) 5
      [("p", ⟨⟨"p", "application/octet-stream".toList, none, none, 0⟩, [120],
        formatOffset 1 1, some "5", 1, [⟨formatOffset 1 1⟩]⟩)] "p" [121]
      ⟨none, some "4"⟩ =
      (.error (.sequenceConflict "> 5" "4"),
        [("p", ⟨⟨"p", "application/octet-stream".toList, none, none, 0⟩, [120],
          formatOffset 1 1, some "5", 1, [⟨formatOffset 1 1⟩]⟩)], []) := rfl
  have hmain := claim_c9_append_rejection (fun _ => none) (fun _ => none) (fun _ => [])
    5 [("p", ⟨⟨"p", "application/octet-stream".toList, none, none, 0⟩, [120],
      formatOffset 1 1, some "5", 1, [⟨formatOffset 1 1⟩]⟩)] "p" [121]
    ⟨none, some "4"⟩ (.sequenceConflict "> 5" "4")
    [("p", ⟨⟨"p", "application/octet-stream".toList, none, none, 0⟩, [120],
      formatOffset 1 1, some "5", 1, [⟨formatOffset 1 1⟩]⟩)] [] happ
  ⟨happ, hmain.1, hmain.2.1⟩

end DurableStreams

namespace DurableStreams

/-- C3 (amended): `validateAppendSeq` raises SequenceConflictError iff both
`last_seq` and the request `seq` are present and the request seq is
string-wise (lexicographically) at most `last_seq`; the error carries
expected `"> " ++ last_seq` (a greater-than sign, a space, then last_seq)
and received = the request seq; and a sequence-conflict rejection of
`MemoryStore.append` changes no state and resolves no waiter. -/
theorem claim_c3_sequence_conflict :
    (∀ lastSeq requestSeq : Option String,
      (∃ e, validateAppendSeq lastSeq requestSeq = .error e) ↔
        (∃ l r, lastSeq = some l ∧ requestSeq = some r ∧ jsStrLe r l = true)) ∧
    (∀ l r : String, jsStrLe r l = true →
      validateAppendSeq (some l) (some r) = .error (.sequenceConflict ("> " ++ l) r)) ∧
    (∀ pd parse stringify now st path data options exp rcv st2 res,
      memAppend pd parse stringify now st path data options =
        (.error (.sequenceConflict exp rcv), st2, res) →
      st2 = st ∧ res = [] ∧
      ∃ s l, st.lookup path = some s ∧ s.lastSeq = some l ∧
        options.seq = some rcv ∧ jsStrLe rcv l = true ∧ exp = "> " ++ l) ∧
    (∀ l r : String, jsStrLe r l = false →
      validateAppendSeq (some l) (some r) = .ok ()) ∧
    (∀ r : String, validateAppendSeq none (some r) = .ok ()) ∧
    (∀ l : String, validateAppendSeq (some l) none = .ok ()) ∧
    validateAppendSeq none none = .ok () := by
  refine ⟨?_, ?_, ?_, ?_, ?_, ?_, rfl⟩
  · intro lastSeq requestSeq
    constructor
    · rintro ⟨e, he⟩
      obtain ⟨l, r, h1, h2, h3, _⟩ := validateAppendSeq_error_shape he
      exact ⟨l, r, h1, h2, h3⟩
    · rintro ⟨l, r, h1, h2, h3⟩
      subst h1 h2
      unfold validateAppendSeq
      refine ⟨StreamError.sequenceConflict ("> " ++ l) r, ?_⟩
      show (if jsStrLe r l = true then
        Except.error (StreamError.sequenceConflict ("> " ++ l) r)
        else Except.ok ()) = _
      rw [if_pos h3]
  · intro l r h3
    unfold validateAppendSeq
    show (if jsStrLe r l = true then
      Except.error (StreamError.sequenceConflict ("> " ++ l) r)
      else Except.ok ()) = _
    rw [if_pos h3]
  · intro pd parse stringify now st path data options exp rcv st2 res h
    unfold memAppend at h
    split at h
    next heq =>
      exact absurd (congrArg (fun t => t.1) h) (by simp)
    next s st1 heq =>
      obtain ⟨hst1, hfind, hlive⟩ := memGetStream_some_elim heq
      rw [hst1] at h
      split at h
      next hct =>
        obtain ⟨a, b, hab⟩ := validateAppendContentType_error_shape hct
        have h1 := congrArg (fun t => t.1) h
        simp only at h1
        injection h1 with h1
        rw [hab] at h1
        exact absurd h1 (by simp)
      split at h
      next hseq =>
        obtain ⟨l, r, hl, hr, hle, herr⟩ := validateAppendSeq_error_shape hseq
        have h1 := congrArg (fun t => t.1) h
        have h2 := congrArg (fun t => t.2.1) h
        have h3 := congrArg (fun t => t.2.2) h
        simp only at h1 h2 h3
        injection h1 with h1
        rw [herr] at h1
        injection h1 with he1 he2
        refine ⟨h2.symm, h3.symm, s, l, hfind, hl, ?_, ?_, he1.symm⟩
        · rw [hr, he2]
        · rw [← he2]
          exact hle
      split at h
      next hmg =>
        obtain ⟨m, hm⟩ := mergeData_error_shape hmg
        have h1 := congrArg (fun t => t.1) h
        simp only at h1
        injection h1 with h1
        rw [hm] at h1
        exact absurd h1 (by simp)
      · exact absurd (congrArg (fun t => t.1) h) (by simp)
  · intro l r h3
    unfold validateAppendSeq
    show (if jsStrLe r l = true then
      Except.error (StreamError.sequenceConflict ("> " ++ l) r)
      else Except.ok ()) = _
    rw [if_neg (by simp [h3])]
  · intro r
    rfl
  · intro l
    rfl

/-- C3 counterexample: the claim states the error carries
`expected = ">{last_seq}"`; the code builds `"> " + last_seq` with a space,
so at `last_seq = "5"`, `seq = "5"` the expected field is `"> 5"`, not
`">5"`. -/
theorem claim_c3_counterexample :
    validateAppendSeq (some "5") (some "5") =
      .error (.sequenceConflict "> 5" "5") ∧ ("> 5" : String) ≠ ">5" :=
  ⟨rfl, by decide⟩

/-- Witness for C3 at concrete sequence tokens. -/
theorem claim_c3_sequence_conflict_witness :
    ((∃ e, validateAppendSeq (some "00000005") (some "00000005") = .error e) ↔
      (∃ l r, (some "00000005" : Option String) = some l ∧
        (some "00000005" : Option String) = some r ∧ jsStrLe r l = true)) ∧
    validateAppendSeq (some "00000005") (some "00000005") =
      .error (.sequenceConflict ("> " ++ "00000005") "00000005") ∧
    validateAppendSeq (some "00000005") (some "00000006") = .ok () :=
  ⟨claim_c3_sequence_conflict.1 (some "00000005") (some "00000005"),
    claim_c3_sequence_conflict.2.1 "00000005" "00000005" (by decide),
    claim_c3_sequence_conflict.2.2.2.1 "00000005" "00000006" (by decide)⟩

end DurableStreams

namespace DurableStreams

/-- C4: for a JSON-content-type stream, a put whose body parses to an empty
array is permitted and yields a stream with zero stored bytes,
append_count = 0, and next offset `formatOffset 0 0`; an append whose body
parses to an empty array is rejected with InvalidJsonError. -/
theorem claim_c4_empty_json_array (parse : List Nat → Option Json)
    (stringify : Json → List Nat) (pd : String → Option Int) (now : Int)
    (body : List Nat) (hparse : parse body = some (.arr [])) :
    (∀ st path ct ttl expAt, st.lookup path = none → isJsonContentType ct = true →
      memPut pd parse stringify now st path ⟨ct, ttl, expAt, some body⟩ =
        (.ok ⟨true, formatOffset 0 0⟩,
          setStream path ⟨⟨path, ct, ttl, expAt, now⟩, [], formatOffset 0 0,
            none, 0, []⟩ st)) ∧
    (∀ st path s, st.lookup path = some s →
      isMetadataExpired pd now s.metadata = false →
      isJsonContentType s.metadata.contentType = true →
      memAppend pd parse stringify now st path body ⟨none, none⟩ =
        (.error (.invalidJson "Empty array not allowed on append"), st, [])) := by
  constructor
  · intro st path ct ttl expAt habsent hct
    have hprep : prepareInitialData parse stringify ⟨ct, ttl, expAt, some body⟩ =
        .ok ⟨[], 0, formatOffset 0 0⟩ := by
      unfold prepareInitialData
      by_cases hb : body = []
      · subst hb
        rw [if_neg (by simp)]
        rfl
      · rw [if_pos ⟨hct, by
          simpa [Option.getD] using List.length_pos.mpr hb⟩]
        have hv : validateJsonCreate parse stringify ((some body).getD []) true = .ok [] := by
          show validateJsonCreate parse stringify body true = .ok []
          unfold validateJsonCreate
          rw [hparse]
          rfl
        rw [hv]
        rfl
    unfold memPut
    rw [memGetStream_absent habsent, hprep]
  · intro st path s hfind hlive hjson
    have hmerge : mergeData parse stringify s.data body
        (isJsonContentType s.metadata.contentType) =
        .error (.invalidJson "Empty array not allowed on append") := by
      rw [hjson]
      show processJsonAppend parse stringify s.data body = _
      unfold processJsonAppend
      rw [hparse]
      rfl
    unfold memAppend
    rw [memGetStream_live hfind hlive]
    show (match mergeData parse stringify s.data body
        (isJsonContentType s.metadata.contentType) with
      | Except.error e => ((Except.error e : Except StreamError AppendResult), st,
          ([] : List (Waiter × WaitResult)))
      | Except.ok newData =>
        ((Except.ok ⟨formatOffset (s.appendCount + 1) newData.length⟩ :
            Except StreamError AppendResult),
          setStream path { s with
            data := newData,
            nextOffset := formatOffset (s.appendCount + 1) newData.length,
            lastSeq := s.lastSeq,
            appendCount := s.appendCount + 1,
            waiters := (notifyWaiters now s.waiters newData).2 } st,
          (notifyWaiters now s.waiters newData).1)) =
      ((Except.error (StreamError.invalidJson "Empty array not allowed on append") :
          Except StreamError AppendResult), st, ([] : List (Waiter × WaitResult)))
    rw [hmerge]

/-- Witness for C4 on a concrete JSON stream and the body `[]`. -/
theorem claim_c4_empty_json_array_witness :
    ((fun b => if b = [91, 93] then some (Json.arr []) else none) [91, 93] =
      some (Json.arr []) ∧
      (([] : MemState).lookup "p" = none) ∧
      isJsonContentType "application/json".toList = true) ∧
    memPut (fun _ => none) (fun b => if b = [91, 93] then some (Json.arr []) else none)
      (fun _ => []) 7 [] "p" ⟨"application/json".toList, none, none, some [91, 93]⟩ =
      (.ok ⟨true, formatOffset 0 0⟩,
        setStream "p" ⟨⟨"p", "application/json".toList, none, none, 7⟩, [],
          formatOffset 0 0, none, 0, []⟩ []) ∧
    memAppend (fun _ => none) (fun b => if b = [91, 93] then some (Json.arr []) else none)
      (fun _ => []) 7
      [("p", ⟨⟨"p", "application/json".toList, none, none, 7⟩, [], formatOffset 0 0,
        none, 0, []⟩)] "p" [91, 93] ⟨none, none⟩ =
      (.error (.invalidJson "Empty array not allowed on append"),
        [("p", ⟨⟨"p", "application/json".toList, none, none, 7⟩, [], formatOffset 0 0,
          none, 0, []⟩)], []) :=
  have hmain := claim_c4_empty_json_array
    (fun b => if b = [91, 93] then some (Json.arr []) else none) (fun _ => [])
    (fun _ => none) 7 [91, 93] rfl
  ⟨⟨rfl, by decide, by decide⟩,
    hmain.1 [] "p" "application/json".toList none none (by decide) (by decide),
    hmain.2 [("p", ⟨⟨"p", "application/json".toList, none, none, 7⟩, [],
      formatOffset 0 0, none, 0, []⟩)] "p"
      ⟨⟨"p", "application/json".toList, none, none, 7⟩, [], formatOffset 0 0, none, 0, []⟩
      (by decide) (by decide) (by decide)⟩

end DurableStreams

namespace DurableStreams

theorem offsetToBytePos_formatOffset {s p : Nat} (hs : s < 16 ^ 16) (hp : p < 16 ^ 16) :
    offsetToBytePos (formatOffset s p) = p := by
  unfold offsetToBytePos
  rw [parseOffset_formatOffset hs hp]

/-- C8 (amended): in the KV substrate, `put` and `append` issue the
metadata-key and data-key writes concurrently through `Promise.all` — in
invocation order the metadata put comes first — and complete both before
returning; once both writes land the combined state is consistent (the
metadata nextOffset byte position equals the data blob length), but no
ordering is enforced between the data write's completion and the metadata
write's beginning, so the metadata-only intermediate state is observable
(see the counterexample, where it exhibits nextOffset > len(buffer)). -/
theorem claim_c8_kv_write_order (parse : List Nat → Option Json)
    (stringify : Json → List Nat) (path : String) :
    (∀ s data options writes r,
      kvAppend parse stringify path s data options = .ok (writes, r) →
      ∃ m nd, writes = [KvWrite.putMeta m, KvWrite.putData nd] ∧
        m.nextOffset = r.nextOffset ∧
        (applyKvWrites s writes).meta = some m ∧
        (applyKvWrites s writes).data = some nd ∧
        (m.appendCount < 16 ^ 16 → nd.length < 16 ^ 16 →
          offsetToBytePos m.nextOffset = nd.length)) ∧
    (∀ s now options writes r,
      kvPut parse stringify now s options = .ok (writes, r) → r.created = true →
      ∃ m nd, writes = [KvWrite.putMeta m, KvWrite.putData nd] ∧
        m.nextOffset = r.nextOffset ∧
        (applyKvWrites s writes).meta = some m ∧
        (applyKvWrites s writes).data = some nd ∧
        (nd.length < 16 ^ 16 → offsetToBytePos m.nextOffset = nd.length)) := by
  constructor
  · intro s data options writes r h
    unfold kvAppend at h
    split at h
    · exact absurd h (by simp)
    next meta hmeta =>
      split at h
      · exact absurd h (by simp)
      split at h
      · exact absurd h (by simp)
      split at h
      · exact absurd h (by simp)
      next newData hmerge =>
        injection h with h
        injection h with hw hr
        refine ⟨_, newData, hw.symm, ?_, ?_, ?_, ?_⟩
        · rw [← hr]
        · rw [hw.symm]
          rfl
        · rw [hw.symm]
          rfl
        · intro hc hl
          exact offsetToBytePos_formatOffset hc hl
  · intro s now options writes r h hcreated
    unfold kvPut at h
    split at h
    next meta hmeta =>
      split at h
      · exact absurd h (by simp)
      · injection h with h
        injection h with hw hr
        rw [← hr] at hcreated
        exact absurd hcreated (by simp)
    next hmeta =>
      split at h
      · exact absurd h (by simp)
      next prep hprep =>
        injection h with h
        injection h with hw hr
        have hshape : ∃ c, prep = ⟨prep.data, c, formatOffset c prep.data.length⟩ ∧
            c < 16 ^ 16 := by
          unfold prepareInitialData at hprep
          split at hprep
          · exact absurd hprep (by simp)
          next d hd =>
            injection hprep with hprep
            refine ⟨if 0 < d.length then 1 else 0, ?_, ?_⟩
            · rw [← hprep]
            · split <;> omega
        obtain ⟨c, hc, hcb⟩ := hshape
        refine ⟨_, prep.data, hw.symm, ?_, ?_, ?_, ?_⟩
        · rw [← hr]
        · rw [hw.symm]
          rfl
        · rw [hw.symm]
          rfl
        · intro hl
          show offsetToBytePos prep.nextOffset = prep.data.length
          have : prep.nextOffset = formatOffset c prep.data.length := by
            conv_lhs => rw [hc]
          rw [this]
          exact offsetToBytePos_formatOffset hcb hl

/-- C8 counterexample: at a concrete one-byte stream, a successful append
issues `[putMeta, putData]` — the metadata write is invoked first, not
begun only after the data write completes — and the intermediate state in
which only that first (metadata) write has landed gives a reader
`nextOffset` byte position 2 while the stored blob still has length 1:
the claimed impossibility `nextOffset > len(buffer)` is observable. -/
theorem claim_c8_counterexample :
    kvAppend (fun _ => none) (fun _ => []) "p"
      ⟨some ⟨"application/octet-stream".toList, none, none, 0, formatOffset 1 1,
        none, 1⟩, some [120]⟩ [121] ⟨none, none⟩ =
      .ok ([KvWrite.putMeta ⟨"application/octet-stream".toList, none, none, 0,
          formatOffset 2 2, none, 2⟩, KvWrite.putData [120, 121]],
        ⟨formatOffset 2 2⟩) ∧
    offsetToBytePos (formatOffset 2 2) = 2 ∧
    (applyKvWrite ⟨some ⟨"application/octet-stream".toList, none, none, 0,
        formatOffset 1 1, none, 1⟩, some [120]⟩
      (KvWrite.putMeta ⟨"application/octet-stream".toList, none, none, 0,
        formatOffset 2 2, none, 2⟩)).data = some [120] ∧
    ¬((2 : Nat) ≤ 1) :=
  ⟨rfl, rfl, rfl, by decide⟩

/-- Witness for C8 at a concrete append and a concrete creating put. -/
theorem claim_c8_kv_write_order_witness :
    (kvAppend (fun _ => none) (fun _ => []) "p"
      ⟨some ⟨"application/octet-stream".toList, none, none, 0, formatOffset 1 1,
        none, 1⟩, some [120]⟩ [121] ⟨none, none⟩ =
      .ok ([KvWrite.putMeta ⟨"application/octet-stream".toList, none, none, 0,
          formatOffset 2 2, none, 2⟩, KvWrite.putData [120, 121]],
        ⟨formatOffset 2 2⟩) ∧
      kvPut (fun _ => none) (fun _ => []) 9 ⟨none, none⟩
        ⟨"application/octet-stream".toList, none, none, some [120]⟩ =
      .ok ([KvWrite.putMeta ⟨"application/octet-stream".toList, none, none, 9,
          formatOffset 1 1, none, 1⟩, KvWrite.putData [120]],
        ⟨true, formatOffset 1 1⟩)) ∧
    (∃ m nd,
      ([KvWrite.putMeta ⟨"application/octet-stream".toList, none, none, 0,
          formatOffset 2 2, none, 2⟩, KvWrite.putData [120, 121]] :
        List KvWrite) = [KvWrite.putMeta m, KvWrite.putData nd] ∧
      m.nextOffset = (⟨formatOffset 2 2⟩ : AppendResult).nextOffset ∧
      (applyKvWrites ⟨some ⟨"application/octet-stream".toList, none, none, 0,
          formatOffset 1 1, none, 1⟩, some [120]⟩
        [KvWrite.putMeta ⟨"application/octet-stream".toList, none, none, 0,
          formatOffset 2 2, none, 2⟩, KvWrite.putData [120, 121]]).meta = some m ∧
      (applyKvWrites ⟨some ⟨"application/octet-stream".toList, none, none, 0,
          formatOffset 1 1, none, 1⟩, some [120]⟩
        [KvWrite.putMeta ⟨"application/octet-stream".toList, none, none, 0,
          formatOffset 2 2, none, 2⟩, KvWrite.putData [120, 121]]).data = some nd ∧
      (m.appendCount < 16 ^ 16 → nd.length < 16 ^ 16 →
        offsetToBytePos m.nextOffset = nd.length)) :=
  ⟨⟨rfl, rfl⟩,
    (claim_c8_kv_write_order (fun _ => none) (fun _ => []) "p").1
      ⟨some ⟨"application/octet-stream".toList, none, none, 0, formatOffset 1 1,
        none, 1⟩, some [120]⟩ [121] ⟨none, none⟩
      [KvWrite.putMeta ⟨"application/octet-stream".toList, none, none, 0,
        formatOffset 2 2, none, 2⟩, KvWrite.putData [120, 121]]
      ⟨formatOffset 2 2⟩ rfl⟩

end DurableStreams
